import Mathlib

/-!
# Verification of the day-layout engine of Katzler/planner

Shallow embedding of `src/utils/scheduler.ts` (the day layout engine) and of
the pieces of `src/types/index.ts` and `src/utils/icsParser.ts` it consumes.

Modelling conventions:

* Instants and durations are rational numbers of minutes (`ℚ`), measured from
  midnight of the single target date of an invocation.  JavaScript `Date`s have
  millisecond resolution and `date-fns`'s `addMinutes` truncates fractional
  milliseconds; we use exact rational arithmetic, which agrees with the source
  on every value appearing in the claims (all sub-millisecond-exact).
* The source reads `new Date()` for "today"/"now"; following the spec's §9
  ("the current date/time is injected as a parameter"), the calendar date is an
  explicit `PDate` argument.  A `PDate` carries an absolute day index (day 0 is
  a Monday, so date-fns's Monday-started weeks are the blocks of seven
  consecutive indices), an absolute month index, and the day-of-month; the
  `isWithinInterval(_, start/end of week)` checks of the source become interval
  checks on day indices and the `isWithinInterval(_, start/end of month)`
  check becomes equality of month indices.
* `generateId()` produces an opaque random identifier that the spec excludes
  from comparison; `ScheduledTask` therefore carries no `id` field.
* TypeScript `sourceType` strings `'core' | 'todo' | 'break' | 'calendar'`
  become the inductive `SourceType` (`break` is a Lean keyword, rendered
  `brk`).  `timeframe: Timeframe` may be `undefined` at runtime (legacy data,
  the source defends with `todo.timeframe || 'this_week'`), rendered
  `Option Timeframe` with `getD .this_week`.
-/

/-- `Timeframe` from `types/index.ts`. -/
inductive Timeframe where
  | today | tomorrow | this_week | next_week | this_month | someday
deriving DecidableEq, Repr

/-- `preferredTime` of a `CoreTask`. -/
inductive PreferredTime where
  | morning | midday | afternoon | anytime | spread
deriving DecidableEq, Repr

/-- `recurrence.type` of a `CoreTask`. -/
inductive RecurrenceType where
  | daily | weekly | monthly
deriving DecidableEq, Repr

/-- `sourceType` of a `ScheduledTask` (`'break'` is rendered `brk`). -/
inductive SourceType where
  | core | todo | brk | calendar
deriving DecidableEq, Repr

/-- `status` of a `ScheduledTask`. -/
inductive TStatus where
  | pending | active | completed | skipped | overflow
deriving DecidableEq, Repr

/-- A calendar date, as used by the eligibility and recurrence predicates.
`day` is the absolute day index (day 0 a Monday), `month` the absolute month
index, `dayOfMonth` the day of the month (`Date.getDate()`). -/
structure PDate where
  day : Int
  month : Int
  dayOfMonth : Int
deriving DecidableEq, Repr

/-- JavaScript `getDay` (0 = Sunday .. 6 = Saturday) of a `PDate`,
derived from the day-0-is-Monday convention. -/
def PDate.getDay (d : PDate) : Int :=
  (d.day.emod 7 + 1).emod 7

/-- date-fns `startOfWeek(_, weekStartsOn: 1)` on absolute day indices:
the preceding (or same) Monday. -/
def startOfWeekDay (d : Int) : Int :=
  d - d.emod 7

/-- `DaySchedule` from `types/index.ts`; the `"HH:MM"` strings `startTime` and
`endTime` are represented by their parsed value in minutes since midnight
(`parseTimeToday` / `parseTimeForDate` in the scheduler). -/
structure DaySchedule where
  enabled : Bool
  startTime : ℚ
  endTime : ℚ
  breakDuration : ℚ
deriving DecidableEq, Repr

/-- `CoreTask.recurrence` from `types/index.ts`. -/
structure Recurrence where
  type : RecurrenceType
  daysOfWeek : Option (List Int)
  dayOfMonth : Option Int
deriving DecidableEq, Repr

/-- `CoreTask` from `types/index.ts`. -/
structure CoreTask where
  id : String
  title : String
  duration : ℚ
  timesPerDay : Int
  recurrence : Recurrence
  preferredTime : PreferredTime
  color : Option String
deriving DecidableEq, Repr

/-- `TodoItem` from `types/index.ts` (`createdAt` ISO string represented by
its epoch-millisecond timestamp, which is how the source compares it). -/
structure TodoItem where
  id : String
  title : String
  duration : ℚ
  timeframe : Option Timeframe
  completed : Bool
  createdAt : Int
deriving DecidableEq, Repr

/-- `CalendarEvent` from `types/index.ts`; `start`/`end` ISO strings are
represented by their instant in minutes on the target day's axis
(`end` is a Lean keyword, rendered `stop`). -/
structure CalendarEvent where
  id : String
  title : String
  start : ℚ
  stop : ℚ
  isAllDay : Bool
  location : Option String
  color : Option String
deriving DecidableEq, Repr

/-- `ScheduledTask` from `types/index.ts` (without the opaque random `id`). -/
structure ScheduledTask where
  sourceId : String
  sourceType : SourceType
  title : String
  scheduledStart : ℚ
  scheduledEnd : ℚ
  status : TStatus
  duration : ℚ
  timeframe : Option Timeframe
  color : Option String
  location : Option String
deriving DecidableEq, Repr

/-- `TIMEFRAME_CONFIG[tf].color` from `types/index.ts`. -/
def timeframeColor : Timeframe → String
  | .today => "#ef4444"
  | .tomorrow => "#f97316"
  | .this_week => "#f59e0b"
  | .next_week => "#3b82f6"
  | .this_month => "#8b5cf6"
  | .someday => "#64748b"

/-- `CALENDAR_EVENT_COLOR` from `types/index.ts`. -/
def CALENDAR_EVENT_COLOR : String := "#0ea5e9"

/-- Default color `'#6366f1'` used for core tasks in the scheduler. -/
def defaultCoreColor : String := "#6366f1"

/-- `timeframeOrder` table inside `sortTodosByTimeframe`. -/
def timeframeOrder : Timeframe → Int
  | .today => 0
  | .tomorrow => 1
  | .this_week => 2
  | .next_week => 3
  | .this_month => 4
  | .someday => 5

/-- `shouldCoreTaskRunOnDate` from the scheduler (`shouldCoreTaskRunToday` is
the same body evaluated at today's date). -/
def shouldCoreTaskRunOnDate (task : CoreTask) (date : PDate) : Bool :=
  let dayOfWeek := date.getDay
  let dayOfMonth := date.dayOfMonth
  match task.recurrence.type with
  | .daily =>
    match task.recurrence.daysOfWeek with
    | some l => if l ≠ [] then l.contains dayOfWeek else true
    | none => true
  | .weekly =>
    match task.recurrence.daysOfWeek with
    | some l => l.contains dayOfWeek
    | none => false
  | .monthly => task.recurrence.dayOfMonth = some dayOfMonth

/-- `shouldCoreTaskRunToday` from the scheduler: textually the same switch as
`shouldCoreTaskRunOnDate`, with `today` read from the clock (here injected). -/
def shouldCoreTaskRunToday (today : PDate) (task : CoreTask) : Bool :=
  shouldCoreTaskRunOnDate task today

/-- `isTodoEligibleToday` from the scheduler.  The source computes
start/end of today's week and month with date-fns and tests whether *today*
lies in them; those tests are kept as interval checks on day indices
(for `this_month`, as the month-index identity). -/
def isTodoEligibleToday (today : PDate) (todo : TodoItem) : Bool :=
  match todo.timeframe.getD .this_week with
  | .today => true
  | .tomorrow => false
  | .this_week =>
    let weekStart := startOfWeekDay today.day
    let weekEnd := weekStart + 6
    decide (weekStart ≤ today.day) && decide (today.day ≤ weekEnd)
  | .next_week =>
    let nextWeekStart := startOfWeekDay (today.day + 7)
    let nextWeekEnd := nextWeekStart + 6
    decide (nextWeekStart ≤ today.day) && decide (today.day ≤ nextWeekEnd)
  | .this_month => decide (today.month = today.month)
  | .someday => true

/-- `isTodoEligibleForDate` from the scheduler. -/
def isTodoEligibleForDate (todo : TodoItem) (date : PDate) (today : PDate) : Bool :=
  let daysFromToday := date.day - today.day
  match todo.timeframe.getD .this_week with
  | .today => decide (daysFromToday = 0)
  | .tomorrow => decide (daysFromToday ≤ 1)
  | .this_week =>
    let weekStart := startOfWeekDay today.day
    let weekEnd := weekStart + 6
    decide (weekStart ≤ date.day) && decide (date.day ≤ weekEnd)
  | .next_week =>
    let nextWeekStart := startOfWeekDay (today.day + 7)
    let nextWeekEnd := nextWeekStart + 6
    decide (nextWeekStart ≤ date.day) && decide (date.day ≤ nextWeekEnd)
  | .this_month => decide (date.month = today.month)
  | .someday => true

/-- The ordering relation realised by `sortTodosByTimeframe`'s comparator
(`a` precedes-or-ties `b` iff the comparator returns `≤ 0`): ascending
timeframe urgency, ties broken by ascending creation timestamp. -/
def todoLe (a b : TodoItem) : Prop :=
  timeframeOrder (a.timeframe.getD .this_week) < timeframeOrder (b.timeframe.getD .this_week) ∨
    (timeframeOrder (a.timeframe.getD .this_week) = timeframeOrder (b.timeframe.getD .this_week) ∧
      a.createdAt ≤ b.createdAt)

instance : DecidableRel todoLe := fun a b => by unfold todoLe; infer_instance

/-- `sortTodosByTimeframe` from the scheduler: JavaScript's stable `sort`
with the urgency/creation comparator, rendered as a stable insertion sort
along `todoLe`. -/
def sortTodosByTimeframe (todos : List TodoItem) : List TodoItem :=
  todos.insertionSort todoLe

/-- `getTimeSlot` from the scheduler, as the `(start, end)` pair of the
morning/midday/afternoon third of the work window. -/
def getTimeSlot (preferredTime : PreferredTime) (startTime endTime : ℚ) : ℚ × ℚ :=
  let thirdDuration := (endTime - startTime) / 3
  match preferredTime with
  | .morning => (startTime, startTime + thirdDuration)
  | .midday => (startTime + thirdDuration, startTime + thirdDuration * 2)
  | .afternoon => (startTime + thirdDuration * 2, endTime)
  | _ => (startTime, endTime)

/-- `getSpreadSlots` from the scheduler. -/
def getSpreadSlots (timesPerDay : Int) (startTime endTime : ℚ) : List ℚ :=
  if timesPerDay < 1 then []
  else if timesPerDay = 1 then [startTime]
  else
    let totalMinutes := endTime - startTime
    let gap := totalMinutes / (timesPerDay : ℚ)
    (List.range timesPerDay.toNat).map fun (i : ℕ) => startTime + gap * (i : ℚ) + gap / 2

/-- `createBreak` from the scheduler. -/
def createBreak (startTime : ℚ) (duration : ℚ) : ScheduledTask :=
  { sourceId := "break"
    sourceType := .brk
    title := "Break"
    scheduledStart := startTime
    scheduledEnd := startTime + duration
    status := .pending
    duration := duration
    timeframe := none
    color := some "#64748b"
    location := none }

/-- Minutes bounds of the target calendar day (`startOfDay`/`endOfDay`;
`endOfDay` is the last millisecond of the day, indistinguishable from the
1440-minute boundary at the resolutions that occur). -/
def dayStartMinutes : ℚ := 0

/-- See `dayStartMinutes`. -/
def dayEndMinutes : ℚ := 1440

/-- `getTimedEventsForDate` from `icsParser.ts`: non-all-day events that
overlap the target calendar day. -/
def getTimedEventsForDate (events : List CalendarEvent) : List CalendarEvent :=
  events.filter fun event =>
    !event.isAllDay && decide (event.start < dayEndMinutes) && decide (dayStartMinutes < event.stop)

/-- A calendar block used for avoidance (`CalendarBlock` in the scheduler);
`end` is rendered `stop`. -/
structure CalBlock where
  start : ℚ
  stop : ℚ
  event : CalendarEvent
deriving DecidableEq, Repr

/-- `getCalendarBlocksForDate` from the scheduler: day's timed events clamped
to the work window, kept only when they still overlap it, sorted by start. -/
def getCalendarBlocksForDate (calendarEvents : List CalendarEvent)
    (dayStart dayEnd : ℚ) : List CalBlock :=
  (((getTimedEventsForDate calendarEvents).map fun event =>
      { start := max event.start dayStart
        stop := min event.stop dayEnd
        event := event : CalBlock }).filter
    fun block => decide (block.start < block.stop)).insertionSort
    fun a b => a.start ≤ b.start

/-- `calendarEventsToScheduledTasks` from the scheduler (original, unclamped
event times). -/
def calendarEventsToScheduledTasks (events : List CalendarEvent) : List ScheduledTask :=
  events.map fun event =>
    { sourceId := event.id
      sourceType := .calendar
      title := event.title
      scheduledStart := event.start
      scheduledEnd := event.stop
      status := .pending
      duration := event.stop - event.start
      timeframe := none
      color := some (event.color.getD CALENDAR_EVENT_COLOR)
      location := event.location }

/-- The per-invocation constants of the engine: work window, break length and
the clamped avoidance blocks. -/
structure EngineCtx where
  startTime : ℚ
  endTime : ℚ
  breakDuration : ℚ
  calendarBlocks : List CalBlock
deriving Repr

/-- The engine's mutable state: the accumulated `schedule` array (in push
order) and the forward cursor `currentTime`. -/
structure EngineState where
  schedule : List ScheduledTask
  currentTime : ℚ
deriving Repr

/-- `advancePastCalendarBlocks` from the scheduler: one in-order pass over the
blocks, moving the cursor to a block's end whenever it lies inside it. -/
def advancePastCalendarBlocks (blocks : List CalBlock) (t : ℚ) : ℚ :=
  blocks.foldl (fun cur block =>
    if block.start ≤ cur ∧ cur < block.stop then block.stop else cur) t

/-- `getNextCalendarBlock` from the scheduler: the first block starting
strictly after the cursor. -/
def getNextCalendarBlock (blocks : List CalBlock) (t : ℚ) : Option CalBlock :=
  blocks.find? fun block => decide (t < block.start)

/-- Lines 407-428 of `addTask`: advance past blocks, bail out at end of day,
jump past the next block when the tentative end crosses it and the gap before
it is under 5 minutes, advance and bail out again.  Returns the cursor and
whether placement failed (the source's early `return false`s).  The source
tests `taskEnd > nextBlock.start` twice in a row (an exact repetition); the
repetition is dropped. -/
def seekPlacement (ctx : EngineCtx) (t : ℚ) (duration : ℚ) : ℚ × Bool :=
  let t1 := advancePastCalendarBlocks ctx.calendarBlocks t
  if ctx.endTime ≤ t1 then (t1, true)
  else
    match getNextCalendarBlock ctx.calendarBlocks t1 with
    | some nextBlock =>
      if nextBlock.start < t1 + duration ∧ nextBlock.start - t1 < 5 then
        let t2 := advancePastCalendarBlocks ctx.calendarBlocks nextBlock.stop
        if ctx.endTime ≤ t2 then (t2, true)
        else
          let t3 := advancePastCalendarBlocks ctx.calendarBlocks t2
          (t3, decide (ctx.endTime ≤ t3))
      else
        let t3 := advancePastCalendarBlocks ctx.calendarBlocks t1
        (t3, decide (ctx.endTime ≤ t3))
    | none =>
      let t3 := advancePastCalendarBlocks ctx.calendarBlocks t1
      (t3, decide (ctx.endTime ≤ t3))

/-- Lines 434-463 of `addTask`, for an already-computed clipped end
`actualEnd`: push the activity `[t3, actualEnd]`, then append the after-task
break when it fits before the end of day and does not overlap the next
calendar block. -/
def placeWithEnd (ctx : EngineCtx) (st : EngineState) (t3 actualEnd : ℚ)
    (sourceId : String) (sourceType : SourceType) (title : String)
    (timeframe : Option Timeframe) (color : Option String) : EngineState :=
  let entry : ScheduledTask :=
    { sourceId := sourceId
      sourceType := sourceType
      title := title
      scheduledStart := t3
      scheduledEnd := actualEnd
      status := .pending
      duration := actualEnd - t3
      timeframe := timeframe
      color := color
      location := none }
  if 0 < ctx.breakDuration ∧ actualEnd < ctx.endTime then
    let t4 := advancePastCalendarBlocks ctx.calendarBlocks actualEnd
    let breakEnd := t4 + ctx.breakDuration
    if breakEnd ≤ ctx.endTime then
      match getNextCalendarBlock ctx.calendarBlocks t4 with
      | none =>
        { schedule := st.schedule ++ [entry, createBreak t4 ctx.breakDuration]
          currentTime := breakEnd }
      | some nextBlockAfter =>
        if breakEnd ≤ nextBlockAfter.start then
          { schedule := st.schedule ++ [entry, createBreak t4 ctx.breakDuration]
            currentTime := breakEnd }
        else { schedule := st.schedule ++ [entry], currentTime := t4 }
    else { schedule := st.schedule ++ [entry], currentTime := t4 }
  else { schedule := st.schedule ++ [entry], currentTime := actualEnd }

/-- Lines 430-463 of `addTask`: clip the tentative end at the end of the work
day and place via `placeWithEnd`. -/
def placeAt (ctx : EngineCtx) (st : EngineState) (t3 : ℚ) (sourceId : String)
    (sourceType : SourceType) (title : String) (duration : ℚ)
    (timeframe : Option Timeframe) (color : Option String) : EngineState :=
  let taskEnd2 := t3 + duration
  let actualEnd := if ctx.endTime < taskEnd2 then ctx.endTime else taskEnd2
  placeWithEnd ctx st t3 actualEnd sourceId sourceType title timeframe color

/-- `addTask` from `generateDailySchedule` (lines 399-464); the `addTask` of
`generateScheduleForDate` (lines 747-805) is the same function minus the
repeated overlap test, hence semantically identical.  The `Bool` is the
source's return value; on failure the mutated cursor persists, as the source's
closure mutates the outer `currentTime` before each early `return false`. -/
def addTask (ctx : EngineCtx) (st : EngineState) (sourceId : String)
    (sourceType : SourceType) (title : String) (duration : ℚ)
    (timeframe : Option Timeframe) (color : Option String) : EngineState × Bool :=
  let seek := seekPlacement ctx st.currentTime duration
  if seek.2 then ({ st with currentTime := seek.1 }, false)
  else (placeAt ctx st seek.1 sourceId sourceType title duration timeframe color, true)

/-- A pre-computed spread slot (`SpreadSlot` in the scheduler). -/
structure SpreadSlot where
  time : ℚ
  task : CoreTask
  instanceNumber : Nat
deriving Repr

/-- The `(i/N)` title of a spread instance (`insertSpreadTask` and the final
flush build it identically). -/
def spreadTitle (task : CoreTask) (instanceNumber : Nat) : String :=
  let times := if task.timesPerDay = 0 then 1 else task.timesPerDay
  if 1 < times then
    task.title ++ " (" ++ toString instanceNumber ++ "/" ++ toString times ++ ")"
  else task.title

/-- `insertSpreadTask` from the scheduler (the slot-index increment is the
caller popping the slot list). -/
def insertSpreadTask (ctx : EngineCtx) (st : EngineState) (slot : SpreadSlot) :
    EngineState :=
  (addTask ctx st slot.task.id .core (spreadTitle slot.task slot.instanceNumber)
    slot.task.duration none (some (slot.task.color.getD defaultCoreColor))).1

/-- The condition of `shouldInsertSpreadTask`: the next slot's time has
arrived, or a 30-minute lookahead would land past it. -/
def spreadDue (t : ℚ) (slot : SpreadSlot) : Bool :=
  decide (slot.time ≤ t) || decide (slot.time < t + 30)

/-- The `while (spreadSlot && currentTime < endTime)` loops that flush all due
spread slots before each core task (lines 492-496 and their copies). -/
def flushSpreadWhile (ctx : EngineCtx) (st : EngineState) :
    List SpreadSlot → EngineState × List SpreadSlot
  | [] => (st, [])
  | slot :: rest =>
    if spreadDue st.currentTime slot && decide (st.currentTime < ctx.endTime) then
      flushSpreadWhile ctx (insertSpreadTask ctx st slot) rest
    else (st, slot :: rest)

/-- The morning/midday/afternoon/remaining-anytime core-task loops (lines
489-498, 544-553, 571-580, 582-591 share this body): flush due spread slots,
then `addTask` the core task. -/
def schedulePreferredTasks (ctx : EngineCtx) :
    List CoreTask → EngineState → List SpreadSlot → EngineState × List SpreadSlot
  | [], st, slots => (st, slots)
  | task :: rest, st, slots =>
    let flushed := flushSpreadWhile ctx st slots
    let st2 := (addTask ctx flushed.1 task.id .core task.title task.duration none
      (some (task.color.getD defaultCoreColor))).1
    schedulePreferredTasks ctx rest st2 flushed.2

/-- The morning todo loop (lines 500-526; lines 836-861 in
`generateScheduleForDate`, which differs only in also admitting `tomorrow`
items, selected by `allowTomorrow`).  Returns the state, the remaining spread
slots and the accumulated `scheduledTodoIds`. -/
def morningTodoLoop (ctx : EngineCtx) (allowTomorrow : Bool) (morningSlotEnd : ℚ) :
    List TodoItem → EngineState → List SpreadSlot → List String →
      EngineState × List SpreadSlot × List String
  | [], st, slots, ids => (st, slots, ids)
  | todo :: rest, st, slots, ids =>
    if morningSlotEnd ≤ st.currentTime then (st, slots, ids)
    else if ids.contains todo.id then
      morningTodoLoop ctx allowTomorrow morningSlotEnd rest st slots ids
    else
      let afterSpread : EngineState × List SpreadSlot :=
        match slots with
        | slot :: restSlots =>
          if spreadDue st.currentTime slot then (insertSpreadTask ctx st slot, restSlots)
          else (st, slots)
        | [] => (st, slots)
      let st1 := afterSpread.1
      let slots1 := afterSpread.2
      if morningSlotEnd ≤ st1.currentTime then (st1, slots1, ids)
      else
        let timeframe := todo.timeframe.getD .this_week
        if timeframe = .today ∨ (allowTomorrow ∧ timeframe = .tomorrow) then
          let st2 := (addTask ctx st1 todo.id .todo todo.title todo.duration
            (some timeframe) (some (timeframeColor timeframe))).1
          morningTodoLoop ctx allowTomorrow morningSlotEnd rest st2 slots1 (todo.id :: ids)
        else morningTodoLoop ctx allowTomorrow morningSlotEnd rest st1 slots1 ids

/-- The gap-fill loops before midday and afternoon (lines 532-541, 559-568):
while the cursor is before the slot start and anytime tasks remain, insert a
due spread slot or shift the next anytime task into the day. -/
def gapFillLoop (ctx : EngineCtx) (slotStart : ℚ) (st : EngineState)
    (slots : List SpreadSlot) (tasks : List CoreTask) :
    EngineState × List SpreadSlot × List CoreTask :=
  if st.currentTime < slotStart then
    match tasks with
    | [] => (st, slots, tasks)
    | task :: restTasks =>
      match slots with
      | slot :: restSlots =>
        if spreadDue st.currentTime slot then
          gapFillLoop ctx slotStart (insertSpreadTask ctx st slot) restSlots
            (task :: restTasks)
        else
          gapFillLoop ctx slotStart
            (addTask ctx st task.id .core task.title task.duration none
              (some (task.color.getD defaultCoreColor))).1 (slot :: restSlots) restTasks
      | [] =>
        gapFillLoop ctx slotStart
          (addTask ctx st task.id .core task.title task.duration none
            (some (task.color.getD defaultCoreColor))).1 [] restTasks
  else (st, slots, tasks)
termination_by slots.length + tasks.length

/-- The final todo loop (lines 593-618): remaining todos by urgency, with a
full spread flush before each. -/
def finalTodoLoop (ctx : EngineCtx) :
    List TodoItem → EngineState → List SpreadSlot → EngineState × List SpreadSlot
  | [], st, slots => (st, slots)
  | todo :: rest, st, slots =>
    if ctx.endTime ≤ st.currentTime then (st, slots)
    else
      let flushed := flushSpreadWhile ctx st slots
      if ctx.endTime ≤ flushed.1.currentTime then flushed
      else
        let timeframe := todo.timeframe.getD .this_week
        let st2 := (addTask ctx flushed.1 todo.id .todo todo.title todo.duration
          (some timeframe) (some (timeframeColor timeframe))).1
        finalTodoLoop ctx rest st2 flushed.2

/-- The final spread flush (lines 620-630): place every remaining spread
instance at the cursor while the day has not ended. -/
def finalSpreadFlush (ctx : EngineCtx) (st : EngineState) :
    List SpreadSlot → EngineState
  | [] => st
  | slot :: rest =>
    if st.currentTime < ctx.endTime then
      finalSpreadFlush ctx (insertSpreadTask ctx st slot) rest
    else st

/-- The placement phases of the engine in their fixed order: morning core
tasks, morning todos, midday gap fill, midday core tasks, afternoon gap fill,
afternoon core tasks, remaining anytime core tasks, remaining todos, final
spread flush (lines 489-630). -/
def enginePipeline (ctx : EngineCtx) (allowTomorrow : Bool)
    (morningTasks middayTasks afternoonTasks anytimeTasks : List CoreTask)
    (eligibleTodos : List TodoItem) (sortedSlots : List SpreadSlot) : EngineState :=
  let st0 : EngineState := { schedule := [], currentTime := ctx.startTime }
  let r1 := schedulePreferredTasks ctx morningTasks st0 sortedSlots
  let morningSlotEnd := (getTimeSlot .morning ctx.startTime ctx.endTime).2
  let r2 := morningTodoLoop ctx allowTomorrow morningSlotEnd eligibleTodos r1.1 r1.2 []
  let middaySlotStart := (getTimeSlot .midday ctx.startTime ctx.endTime).1
  let r3 :=
    if r2.1.currentTime < middaySlotStart ∧ middayTasks ≠ [] then
      gapFillLoop ctx middaySlotStart r2.1 r2.2.1 anytimeTasks
    else (r2.1, r2.2.1, anytimeTasks)
  let r4 := schedulePreferredTasks ctx middayTasks r3.1 r3.2.1
  let afternoonSlotStart := (getTimeSlot .afternoon ctx.startTime ctx.endTime).1
  let r5 :=
    if r4.1.currentTime < afternoonSlotStart ∧ afternoonTasks ≠ [] then
      gapFillLoop ctx afternoonSlotStart r4.1 r4.2 r3.2.2
    else (r4.1, r4.2, r3.2.2)
  let r6 := schedulePreferredTasks ctx afternoonTasks r5.1 r5.2.1
  let r7 := schedulePreferredTasks ctx r5.2.2 r6.1 r6.2
  let remainingTodos := sortTodosByTimeframe
    (eligibleTodos.filter fun t => !(r2.2.2.contains t.id))
  let r8 := finalTodoLoop ctx remainingTodos r7.1 r7.2
  finalSpreadFlush ctx r8.1 r8.2

/-- The common body of `generateDailySchedule` and `generateScheduleForDate`
after eligibility filtering (the two differ only in how `dayCoreTasks` /
`eligibleTodos` are computed and in `allowTomorrow`, see the entry points). -/
def runEngine (startTime endTime breakDuration : ℚ) (allowTomorrow : Bool)
    (dayCoreTasks : List CoreTask) (eligibleTodos : List TodoItem)
    (calendarEvents : List CalendarEvent) : List ScheduledTask :=
  let calendarBlocks := getCalendarBlocksForDate calendarEvents startTime endTime
  let calendarScheduledTasks :=
    calendarEventsToScheduledTasks (getTimedEventsForDate calendarEvents)
  let ctx : EngineCtx :=
    { startTime := startTime, endTime := endTime, breakDuration := breakDuration
      calendarBlocks := calendarBlocks }
  let spreadTasks := dayCoreTasks.filter fun t =>
    decide (t.preferredTime = .spread) || decide (1 < t.timesPerDay)
  let regularTasks := dayCoreTasks.filter fun t =>
    decide (t.preferredTime ≠ .spread) &&
      (decide (t.timesPerDay = 0) || decide (t.timesPerDay = 1))
  let morningTasks := regularTasks.filter fun t => decide (t.preferredTime = .morning)
  let middayTasks := regularTasks.filter fun t => decide (t.preferredTime = .midday)
  let afternoonTasks := regularTasks.filter fun t => decide (t.preferredTime = .afternoon)
  let remainingAnytimeTasks := regularTasks.filter fun t => decide (t.preferredTime = .anytime)
  let spreadSlots : List SpreadSlot := spreadTasks.flatMap fun task =>
    let times := if task.timesPerDay = 0 then 1 else task.timesPerDay
    ((getSpreadSlots times startTime endTime).enum.map fun p =>
      { time := p.2, task := task, instanceNumber := p.1 + 1 })
  let sortedSlots := spreadSlots.insertionSort fun a b => a.time ≤ b.time
  let st9 := enginePipeline ctx allowTomorrow morningTasks middayTasks afternoonTasks
    remainingAnytimeTasks eligibleTodos sortedSlots
  let fullSchedule := st9.schedule ++ calendarScheduledTasks
  fullSchedule.insertionSort fun a b => a.scheduledStart ≤ b.scheduledStart

/-- `generateDailySchedule` from the scheduler (`today` injected for the
source's `new Date()`). -/
def generateDailySchedule (coreTasks : List CoreTask) (todos : List TodoItem)
    (dayConfig : DaySchedule) (calendarEvents : List CalendarEvent)
    (today : PDate) : List ScheduledTask :=
  if !dayConfig.enabled then []
  else
    runEngine dayConfig.startTime dayConfig.endTime dayConfig.breakDuration false
      (coreTasks.filter (shouldCoreTaskRunToday today))
      (sortTodosByTimeframe
        (todos.filter fun t => !t.completed && isTodoEligibleToday today t))
      calendarEvents

/-- `generateScheduleForDate` from the scheduler. -/
def generateScheduleForDate (date : PDate) (coreTasks : List CoreTask)
    (todos : List TodoItem) (dayConfig : DaySchedule)
    (calendarEvents : List CalendarEvent) (today : PDate) : List ScheduledTask :=
  if !dayConfig.enabled then []
  else
    runEngine dayConfig.startTime dayConfig.endTime dayConfig.breakDuration true
      (coreTasks.filter fun task => shouldCoreTaskRunOnDate task date)
      (sortTodosByTimeframe
        (todos.filter fun t => !t.completed && isTodoEligibleForDate t date today))
      calendarEvents

/-- `getTotalScheduledMinutes` from the scheduler. -/
def getTotalScheduledMinutes (schedule : List ScheduledTask) : ℚ :=
  ((schedule.filter fun t => decide (t.sourceType ≠ .brk)).map
    (fun t => t.duration)).sum

/-- `getCompletedMinutes` from the scheduler. -/
def getCompletedMinutes (schedule : List ScheduledTask) : ℚ :=
  ((schedule.filter fun t =>
      decide (t.status = .completed) && decide (t.sourceType ≠ .brk)).map
    (fun t => t.duration)).sum

/-- `getDayProgress` from the scheduler. -/
def getDayProgress (schedule : List ScheduledTask) : ℚ :=
  let total := getTotalScheduledMinutes schedule
  let completed := getCompletedMinutes schedule
  if 0 < total then completed / total * 100 else 0

/-- Two activities overlap in time when their scheduled intervals intersect in
an interval of positive length. -/
def TimeOverlap (a b : ScheduledTask) : Prop :=
  max a.scheduledStart b.scheduledStart < min a.scheduledEnd b.scheduledEnd

/-- A non-break, non-calendar activity. -/
def NB (e : ScheduledTask) : Prop :=
  e.sourceType ≠ .brk ∧ e.sourceType ≠ .calendar

/-- Calendar blocks are well-formed: start not after end.  This holds of the
output of `getCalendarBlocksForDate` (its filter keeps `start < stop`). -/
def WFBlocks (ctx : EngineCtx) : Prop :=
  ∀ b ∈ ctx.calendarBlocks, b.start ≤ b.stop

theorem advancePastCalendarBlocks_le (blocks : List CalBlock) (t : ℚ) :
    t ≤ advancePastCalendarBlocks blocks t := by
  unfold advancePastCalendarBlocks
  induction blocks generalizing t with
  | nil => simp
  | cons b bs ih =>
    simp only [List.foldl_cons]
    by_cases h : b.start ≤ t ∧ t < b.stop
    · rw [if_pos h]
      exact le_trans (le_of_lt h.2) (ih b.stop)
    · rw [if_neg h]
      exact ih t

theorem getNextCalendarBlock_eq_some {blocks : List CalBlock} {t : ℚ} {nb : CalBlock}
    (h : getNextCalendarBlock blocks t = some nb) : nb ∈ blocks ∧ t < nb.start := by
  unfold getNextCalendarBlock at h
  refine ⟨List.mem_of_find?_eq_some h, ?_⟩
  have := List.find?_some h
  simpa using this

theorem seekPlacement_le (ctx : EngineCtx) (t duration : ℚ)
    (hwf : WFBlocks ctx) :
    t ≤ (seekPlacement ctx t duration).1 ∧
      ((seekPlacement ctx t duration).2 = false →
        (seekPlacement ctx t duration).1 < ctx.endTime) := by
  simp only [seekPlacement]
  split
  next hend =>
    refine ⟨advancePastCalendarBlocks_le _ _, ?_⟩
    intro h
    simp at h
  next hend =>
    split
    next nb heq =>
      obtain ⟨hmem, hlt⟩ := getNextCalendarBlock_eq_some heq
      split
      next hcond =>
        split
        next hend2 =>
          refine ⟨?_, ?_⟩
          · exact le_trans (advancePastCalendarBlocks_le _ _)
              (le_trans (le_of_lt hlt)
                (le_trans (hwf nb hmem) (advancePastCalendarBlocks_le _ _)))
          · intro h
            simp at h
        next hend2 =>
          refine ⟨?_, ?_⟩
          · exact le_trans (advancePastCalendarBlocks_le _ _)
              (le_trans (le_of_lt hlt)
                (le_trans (hwf nb hmem)
                  (le_trans (advancePastCalendarBlocks_le _ _)
                    (advancePastCalendarBlocks_le _ _))))
          · intro h
            exact lt_of_not_le (by simpa using h)
      next hcond =>
        refine ⟨?_, ?_⟩
        · exact le_trans (advancePastCalendarBlocks_le _ _)
            (advancePastCalendarBlocks_le _ _)
        · intro h
          exact lt_of_not_le (by simpa using h)
    next heq =>
      refine ⟨?_, ?_⟩
      · exact le_trans (advancePastCalendarBlocks_le _ _)
          (advancePastCalendarBlocks_le _ _)
      · intro h
        exact lt_of_not_le (by simpa using h)

theorem placeWithEnd_spec (ctx : EngineCtx) (st : EngineState) (t3 actualEnd : ℚ)
    (sid : String) (sty : SourceType) (title : String) (tf : Option Timeframe)
    (color : Option String) (hA1 : t3 ≤ actualEnd) (hA2 : actualEnd ≤ ctx.endTime) :
    t3 ≤ (placeWithEnd ctx st t3 actualEnd sid sty title tf color).currentTime ∧
    ∃ new, (placeWithEnd ctx st t3 actualEnd sid sty title tf color).schedule =
        st.schedule ++ new ∧
      new.Pairwise (fun a b => a.scheduledEnd ≤ b.scheduledStart) ∧
      ∀ e ∈ new, t3 ≤ e.scheduledStart ∧ e.scheduledStart ≤ e.scheduledEnd ∧
        e.scheduledEnd ≤ (placeWithEnd ctx st t3 actualEnd sid sty title tf color).currentTime ∧
        e.scheduledEnd ≤ ctx.endTime := by
  have hadv : actualEnd ≤ advancePastCalendarBlocks ctx.calendarBlocks actualEnd :=
    advancePastCalendarBlocks_le _ _
  simp only [placeWithEnd]
  split
  next hgate =>
    obtain ⟨hbd, hlt⟩ := hgate
    split
    next hbe =>
      split
      next hnone =>
        refine ⟨by dsimp only; linarith, _, rfl, ?_, ?_⟩
        · simp [createBreak]
          linarith
        · intro e he
          simp only [List.mem_cons, List.mem_singleton, List.not_mem_nil, or_false] at he
          rcases he with he | he <;> subst he <;> simp [createBreak] <;>
            exact ⟨by linarith, by linarith, by linarith⟩
      next nba hnba =>
        split
        next hnbok =>
          refine ⟨by dsimp only; linarith, _, rfl, ?_, ?_⟩
          · simp [createBreak]
            linarith
          · intro e he
            simp only [List.mem_cons, List.mem_singleton, List.not_mem_nil, or_false] at he
            rcases he with he | he <;> subst he <;> simp [createBreak] <;>
              exact ⟨by linarith, by linarith, by linarith⟩
        next hnbok =>
          refine ⟨by dsimp only; linarith, _, rfl, ?_, ?_⟩
          · simp
          · intro e he
            simp only [List.mem_singleton] at he
            subst he
            dsimp only
            exact ⟨le_rfl, by linarith, by linarith, by linarith⟩
    next hbe =>
      refine ⟨by dsimp only; linarith, _, rfl, ?_, ?_⟩
      · simp
      · intro e he
        simp only [List.mem_singleton] at he
        subst he
        dsimp only
        exact ⟨le_rfl, by linarith, by linarith, by linarith⟩
  next hgate =>
    refine ⟨by dsimp only; linarith, _, rfl, ?_, ?_⟩
    · simp
    · intro e he
      simp only [List.mem_singleton] at he
      subst he
      dsimp only
      exact ⟨le_rfl, by linarith, by linarith, by linarith⟩

theorem placeAt_spec (ctx : EngineCtx) (st : EngineState) (t3 : ℚ) (sid : String)
    (sty : SourceType) (title : String) (duration : ℚ) (tf : Option Timeframe)
    (color : Option String) (h3 : t3 < ctx.endTime) (hd : 0 ≤ duration) :
    t3 ≤ (placeAt ctx st t3 sid sty title duration tf color).currentTime ∧
    ∃ new, (placeAt ctx st t3 sid sty title duration tf color).schedule =
        st.schedule ++ new ∧
      new.Pairwise (fun a b => a.scheduledEnd ≤ b.scheduledStart) ∧
      ∀ e ∈ new, t3 ≤ e.scheduledStart ∧ e.scheduledStart ≤ e.scheduledEnd ∧
        e.scheduledEnd ≤ (placeAt ctx st t3 sid sty title duration tf color).currentTime ∧
        e.scheduledEnd ≤ ctx.endTime := by
  have hA1 : t3 ≤ (if ctx.endTime < t3 + duration then ctx.endTime else t3 + duration) := by
    split
    · exact le_of_lt h3
    · linarith
  have hA2 : (if ctx.endTime < t3 + duration then ctx.endTime else t3 + duration) ≤
      ctx.endTime := by
    split
    next => exact le_rfl
    next h => linarith [not_lt.mp h]
  simpa only [placeAt] using
    placeWithEnd_spec ctx st t3 _ sid sty title tf color hA1 hA2

theorem addTask_spec (ctx : EngineCtx) (st : EngineState) (sid : String)
    (sty : SourceType) (title : String) (duration : ℚ) (tf : Option Timeframe)
    (color : Option String) (hwf : WFBlocks ctx) (hd : 0 ≤ duration) :
    st.currentTime ≤ (addTask ctx st sid sty title duration tf color).1.currentTime ∧
    ∃ new, (addTask ctx st sid sty title duration tf color).1.schedule =
        st.schedule ++ new ∧
      new.Pairwise (fun a b => a.scheduledEnd ≤ b.scheduledStart) ∧
      ∀ e ∈ new, st.currentTime ≤ e.scheduledStart ∧
        e.scheduledStart ≤ e.scheduledEnd ∧
        e.scheduledEnd ≤ (addTask ctx st sid sty title duration tf color).1.currentTime ∧
        e.scheduledEnd ≤ ctx.endTime := by
  obtain ⟨hseek1, hseek2⟩ := seekPlacement_le ctx st.currentTime duration hwf
  simp only [addTask]
  split
  next hfail =>
    exact ⟨by dsimp only; exact hseek1, [], by simp, by simp, by simp⟩
  next hfail =>
    have h3lt : (seekPlacement ctx st.currentTime duration).1 < ctx.endTime :=
      hseek2 (Bool.not_eq_true _ ▸ by simpa using hfail)
    obtain ⟨hc, new, hnew, hpw, hprops⟩ :=
      placeAt_spec ctx st (seekPlacement ctx st.currentTime duration).1 sid sty title
        duration tf color h3lt hd
    refine ⟨le_trans hseek1 hc, new, hnew, hpw, ?_⟩
    intro e he
    obtain ⟨h1, h2, h3, h4⟩ := hprops e he
    exact ⟨le_trans hseek1 h1, h2, h3, h4⟩

/-- The engine-state invariant maintained by every placement phase:
entries are pushed in chronological order, end before the cursor, and lie in
the work window. -/
structure EngineInv (ctx : EngineCtx) (st : EngineState) : Prop where
  ordered : st.schedule.Pairwise fun a b => a.scheduledEnd ≤ b.scheduledStart
  endsLe : ∀ e ∈ st.schedule, e.scheduledEnd ≤ st.currentTime
  cursorGe : ctx.startTime ≤ st.currentTime
  startsGe : ∀ e ∈ st.schedule, ctx.startTime ≤ e.scheduledStart
  endsLeEnd : ∀ e ∈ st.schedule, e.scheduledEnd ≤ ctx.endTime
  startLeSelf : ∀ e ∈ st.schedule, e.scheduledStart ≤ e.scheduledEnd

theorem EngineInv.step {ctx : EngineCtx} {st st' : EngineState} (hinv : EngineInv ctx st)
    (hmono : st.currentTime ≤ st'.currentTime)
    (hnew : ∃ new, st'.schedule = st.schedule ++ new ∧
      new.Pairwise (fun a b => a.scheduledEnd ≤ b.scheduledStart) ∧
      ∀ e ∈ new, st.currentTime ≤ e.scheduledStart ∧
        e.scheduledStart ≤ e.scheduledEnd ∧
        e.scheduledEnd ≤ st'.currentTime ∧ e.scheduledEnd ≤ ctx.endTime) :
    EngineInv ctx st' := by
  obtain ⟨new, hsched, hpw, hprops⟩ := hnew
  refine ⟨?_, ?_, le_trans hinv.cursorGe hmono, ?_, ?_, ?_⟩
  · rw [hsched, List.pairwise_append]
    refine ⟨hinv.ordered, hpw, fun a ha b hb => ?_⟩
    exact le_trans (hinv.endsLe a ha) (hprops b hb).1
  · rw [hsched]
    intro e he
    rcases List.mem_append.mp he with h | h
    · exact le_trans (hinv.endsLe e h) hmono
    · exact (hprops e h).2.2.1
  · rw [hsched]
    intro e he
    rcases List.mem_append.mp he with h | h
    · exact hinv.startsGe e h
    · exact le_trans hinv.cursorGe (hprops e h).1
  · rw [hsched]
    intro e he
    rcases List.mem_append.mp he with h | h
    · exact hinv.endsLeEnd e h
    · exact (hprops e h).2.2.2
  · rw [hsched]
    intro e he
    rcases List.mem_append.mp he with h | h
    · exact hinv.startLeSelf e h
    · exact (hprops e h).2.1

theorem addTask_inv {ctx : EngineCtx} {st : EngineState} {sid : String}
    {sty : SourceType} {title : String} {duration : ℚ} {tf : Option Timeframe}
    {color : Option String} (hwf : WFBlocks ctx) (hd : 0 ≤ duration)
    (hinv : EngineInv ctx st) :
    EngineInv ctx (addTask ctx st sid sty title duration tf color).1 := by
  obtain ⟨hmono, hnew⟩ := addTask_spec ctx st sid sty title duration tf color hwf hd
  exact hinv.step hmono hnew

theorem insertSpreadTask_inv {ctx : EngineCtx} {st : EngineState} {slot : SpreadSlot}
    (hwf : WFBlocks ctx) (hd : 0 ≤ slot.task.duration) (hinv : EngineInv ctx st) :
    EngineInv ctx (insertSpreadTask ctx st slot) :=
  addTask_inv hwf hd hinv

theorem flushSpreadWhile_inv {ctx : EngineCtx} (hwf : WFBlocks ctx) :
    ∀ (slots : List SpreadSlot) (st : EngineState),
      (∀ s ∈ slots, 0 ≤ s.task.duration) → EngineInv ctx st →
      EngineInv ctx (flushSpreadWhile ctx st slots).1 ∧
        ∀ s ∈ (flushSpreadWhile ctx st slots).2, s ∈ slots := by
  intro slots
  induction slots with
  | nil =>
    intro st _ hinv
    exact ⟨hinv, by simp [flushSpreadWhile]⟩
  | cons slot rest ih =>
    intro st hslots hinv
    simp only [flushSpreadWhile]
    split
    next hcond =>
      obtain ⟨h1, h2⟩ := ih (insertSpreadTask ctx st slot)
        (fun s hs => hslots s (List.mem_cons_of_mem _ hs))
        (insertSpreadTask_inv hwf (hslots slot (List.mem_cons_self _ _)) hinv)
      exact ⟨h1, fun s hs => List.mem_cons_of_mem _ (h2 s hs)⟩
    next hcond =>
      exact ⟨hinv, fun s hs => hs⟩

theorem schedulePreferredTasks_inv {ctx : EngineCtx} (hwf : WFBlocks ctx) :
    ∀ (tasks : List CoreTask) (st : EngineState) (slots : List SpreadSlot),
      (∀ t ∈ tasks, 0 ≤ t.duration) → (∀ s ∈ slots, 0 ≤ s.task.duration) →
      EngineInv ctx st →
      EngineInv ctx (schedulePreferredTasks ctx tasks st slots).1 ∧
        ∀ s ∈ (schedulePreferredTasks ctx tasks st slots).2, s ∈ slots := by
  intro tasks
  induction tasks with
  | nil =>
    intro st slots _ _ hinv
    exact ⟨hinv, by simp [schedulePreferredTasks]⟩
  | cons task rest ih =>
    intro st slots htasks hslots hinv
    simp only [schedulePreferredTasks]
    obtain ⟨hf1, hf2⟩ := flushSpreadWhile_inv hwf slots st hslots hinv
    obtain ⟨h1, h2⟩ := ih _ (flushSpreadWhile ctx st slots).2
      (fun t ht => htasks t (List.mem_cons_of_mem _ ht))
      (fun s hs => hslots s (hf2 s hs))
      (addTask_inv hwf (htasks task (List.mem_cons_self _ _)) hf1)
    exact ⟨h1, fun s hs => hf2 s (h2 s hs)⟩

theorem morningTodoLoop_inv {ctx : EngineCtx} (hwf : WFBlocks ctx)
    (allowTomorrow : Bool) (morningSlotEnd : ℚ) :
    ∀ (todos : List TodoItem) (st : EngineState) (slots : List SpreadSlot)
      (ids : List String),
      (∀ t ∈ todos, 0 ≤ t.duration) → (∀ s ∈ slots, 0 ≤ s.task.duration) →
      EngineInv ctx st →
      EngineInv ctx (morningTodoLoop ctx allowTomorrow morningSlotEnd todos st slots ids).1 ∧
        ∀ s ∈ (morningTodoLoop ctx allowTomorrow morningSlotEnd todos st slots ids).2.1,
          s ∈ slots := by
  intro todos
  induction todos with
  | nil =>
    intro st slots ids _ _ hinv
    exact ⟨hinv, by simp [morningTodoLoop]⟩
  | cons todo rest ih =>
    intro st slots ids htodos hslots hinv
    simp only [morningTodoLoop]
    split
    next => exact ⟨hinv, fun s hs => hs⟩
    next hbreak =>
      split
      next =>
        exact ih st slots ids (fun t ht => htodos t (List.mem_cons_of_mem _ ht))
          hslots hinv
      next hmem =>
        have hstep :
            EngineInv ctx
              (match slots with
                | slot :: restSlots =>
                  if spreadDue st.currentTime slot then
                    (insertSpreadTask ctx st slot, restSlots)
                  else (st, slots)
                | [] => (st, slots)).1 ∧
            ∀ s ∈ (match slots with
                | slot :: restSlots =>
                  if spreadDue st.currentTime slot then
                    (insertSpreadTask ctx st slot, restSlots)
                  else (st, slots)
                | [] => (st, slots)).2, s ∈ slots := by
          match slots with
          | [] => exact ⟨hinv, fun s hs => hs⟩
          | slot :: restSlots =>
            by_cases hdue : spreadDue st.currentTime slot
            · simp only [hdue, if_true]
              exact ⟨insertSpreadTask_inv hwf (hslots slot (List.mem_cons_self _ _)) hinv,
                fun s hs => List.mem_cons_of_mem _ hs⟩
            · simp only [hdue, if_false]
              exact ⟨hinv, fun s hs => hs⟩
      
        obtain ⟨hst1, hsub1⟩ := hstep
        split
        next => exact ⟨hst1, hsub1⟩
        next hbreak2 =>
          split
          next htf =>
            obtain ⟨h1, h2⟩ := ih _ _ (todo.id :: ids)
              (fun t ht => htodos t (List.mem_cons_of_mem _ ht))
              (fun s hs => hslots s (hsub1 s hs))
              (addTask_inv hwf (htodos todo (List.mem_cons_self _ _)) hst1)
            exact ⟨h1, fun s hs => hsub1 s (h2 s hs)⟩
          next htf =>
            obtain ⟨h1, h2⟩ := ih _ _ ids
              (fun t ht => htodos t (List.mem_cons_of_mem _ ht))
              (fun s hs => hslots s (hsub1 s hs)) hst1
            exact ⟨h1, fun s hs => hsub1 s (h2 s hs)⟩

theorem gapFillLoop_inv {ctx : EngineCtx} (hwf : WFBlocks ctx) (slotStart : ℚ) :
    ∀ (st : EngineState) (slots : List SpreadSlot) (tasks : List CoreTask),
      (∀ s ∈ slots, 0 ≤ s.task.duration) → (∀ t ∈ tasks, 0 ≤ t.duration) →
      EngineInv ctx st →
      EngineInv ctx (gapFillLoop ctx slotStart st slots tasks).1 ∧
        (∀ s ∈ (gapFillLoop ctx slotStart st slots tasks).2.1, s ∈ slots) ∧
        (∀ t ∈ (gapFillLoop ctx slotStart st slots tasks).2.2, t ∈ tasks) := by
  intro st slots tasks
  induction st, slots, tasks using gapFillLoop.induct ctx slotStart with
  | case1 st slots h1 =>
    intro hslots htasks hinv
    rw [gapFillLoop.eq_def]
    simp only [if_pos h1]
    exact ⟨hinv, fun s hs => hs, by simp⟩
  | case2 st h1 task restTasks slot restSlots hdue ih =>
    intro hslots htasks hinv
    rw [gapFillLoop.eq_def]
    simp only [if_pos h1, hdue, if_true]
    obtain ⟨h1p, h2p, h3p⟩ := ih
      (fun s hs => hslots s (List.mem_cons_of_mem _ hs))
      htasks
      (insertSpreadTask_inv hwf (hslots slot (List.mem_cons_self _ _)) hinv)
    exact ⟨h1p, fun s hs => List.mem_cons_of_mem _ (h2p s hs), h3p⟩
  | case3 st h1 task restTasks slot restSlots hdue ih =>
    intro hslots htasks hinv
    rw [gapFillLoop.eq_def]
    simp only [if_pos h1, hdue, if_false, Bool.false_eq_true]
    obtain ⟨h1p, h2p, h3p⟩ := ih
      hslots
      (fun t ht => htasks t (List.mem_cons_of_mem _ ht))
      (addTask_inv hwf (htasks task (List.mem_cons_self _ _)) hinv)
    exact ⟨h1p, h2p, fun t ht => List.mem_cons_of_mem _ (h3p t ht)⟩
  | case4 st h1 task restTasks ih =>
    intro hslots htasks hinv
    rw [gapFillLoop.eq_def]
    simp only [if_pos h1]
    obtain ⟨h1p, h2p, h3p⟩ := ih
      (by simp)
      (fun t ht => htasks t (List.mem_cons_of_mem _ ht))
      (addTask_inv hwf (htasks task (List.mem_cons_self _ _)) hinv)
    exact ⟨h1p, h2p, fun t ht => List.mem_cons_of_mem _ (h3p t ht)⟩
  | case5 st slots tasks h1 =>
    intro hslots htasks hinv
    rw [gapFillLoop.eq_def]
    simp only [if_neg h1]
    exact ⟨hinv, fun s hs => hs, fun t ht => ht⟩

theorem finalTodoLoop_inv {ctx : EngineCtx} (hwf : WFBlocks ctx) :
    ∀ (todos : List TodoItem) (st : EngineState) (slots : List SpreadSlot),
      (∀ t ∈ todos, 0 ≤ t.duration) → (∀ s ∈ slots, 0 ≤ s.task.duration) →
      EngineInv ctx st →
      EngineInv ctx (finalTodoLoop ctx todos st slots).1 ∧
        ∀ s ∈ (finalTodoLoop ctx todos st slots).2, s ∈ slots := by
  intro todos
  induction todos with
  | nil =>
    intro st slots _ _ hinv
    exact ⟨hinv, fun s hs => hs⟩
  | cons todo rest ih =>
    intro st slots htodos hslots hinv
    simp only [finalTodoLoop]
    split
    next => exact ⟨hinv, fun s hs => hs⟩
    next hend =>
      obtain ⟨hf1, hf2⟩ := flushSpreadWhile_inv hwf slots st hslots hinv
      split
      next => exact ⟨hf1, hf2⟩
      next hend2 =>
        obtain ⟨h1, h2⟩ := ih _ (flushSpreadWhile ctx st slots).2
          (fun t ht => htodos t (List.mem_cons_of_mem _ ht))
          (fun s hs => hslots s (hf2 s hs))
          (addTask_inv hwf (htodos todo (List.mem_cons_self _ _)) hf1)
        exact ⟨h1, fun s hs => hf2 s (h2 s hs)⟩

theorem finalSpreadFlush_inv {ctx : EngineCtx} (hwf : WFBlocks ctx) :
    ∀ (slots : List SpreadSlot) (st : EngineState),
      (∀ s ∈ slots, 0 ≤ s.task.duration) → EngineInv ctx st →
      EngineInv ctx (finalSpreadFlush ctx st slots) := by
  intro slots
  induction slots with
  | nil => intro st _ hinv; exact hinv
  | cons slot rest ih =>
    intro st hslots hinv
    simp only [finalSpreadFlush]
    split
    next =>
      exact ih _ (fun s hs => hslots s (List.mem_cons_of_mem _ hs))
        (insertSpreadTask_inv hwf (hslots slot (List.mem_cons_self _ _)) hinv)
    next => exact hinv

theorem enginePipeline_inv {ctx : EngineCtx} (hwf : WFBlocks ctx)
    (allowTomorrow : Bool)
    (morningTasks middayTasks afternoonTasks anytimeTasks : List CoreTask)
    (eligibleTodos : List TodoItem) (sortedSlots : List SpreadSlot)
    (hm : ∀ t ∈ morningTasks, 0 ≤ t.duration)
    (hmd : ∀ t ∈ middayTasks, 0 ≤ t.duration)
    (ha : ∀ t ∈ afternoonTasks, 0 ≤ t.duration)
    (hay : ∀ t ∈ anytimeTasks, 0 ≤ t.duration)
    (htd : ∀ t ∈ eligibleTodos, 0 ≤ t.duration)
    (hsl : ∀ s ∈ sortedSlots, 0 ≤ s.task.duration) :
    EngineInv ctx (enginePipeline ctx allowTomorrow morningTasks middayTasks
      afternoonTasks anytimeTasks eligibleTodos sortedSlots) := by
  have hinv0 : EngineInv ctx { schedule := [], currentTime := ctx.startTime } :=
    ⟨by simp, by simp, le_rfl, by simp, by simp, by simp⟩
  simp only [enginePipeline]
  obtain ⟨i1, s1⟩ := schedulePreferredTasks_inv hwf morningTasks _ sortedSlots hm hsl hinv0
  obtain ⟨i2, s2⟩ := morningTodoLoop_inv hwf allowTomorrow _ eligibleTodos _ _ [] htd
    (fun s hs => hsl s (s1 s hs)) i1
  set r2 := morningTodoLoop ctx allowTomorrow
    (getTimeSlot PreferredTime.morning ctx.startTime ctx.endTime).2 eligibleTodos
    (schedulePreferredTasks ctx morningTasks
      { schedule := [], currentTime := ctx.startTime } sortedSlots).1
    (schedulePreferredTasks ctx morningTasks
      { schedule := [], currentTime := ctx.startTime } sortedSlots).2 [] with hr2
  have hslr2 : ∀ s ∈ r2.2.1, 0 ≤ s.task.duration :=
    fun s hs => hsl s (s1 s (s2 s hs))
  have hstep3 :
      EngineInv ctx (if r2.1.currentTime <
            (getTimeSlot PreferredTime.midday ctx.startTime ctx.endTime).1 ∧
            middayTasks ≠ [] then
          gapFillLoop ctx (getTimeSlot PreferredTime.midday ctx.startTime ctx.endTime).1
            r2.1 r2.2.1 anytimeTasks
        else (r2.1, r2.2.1, anytimeTasks)).1 ∧
      (∀ s ∈ (if r2.1.currentTime <
            (getTimeSlot PreferredTime.midday ctx.startTime ctx.endTime).1 ∧
            middayTasks ≠ [] then
          gapFillLoop ctx (getTimeSlot PreferredTime.midday ctx.startTime ctx.endTime).1
            r2.1 r2.2.1 anytimeTasks
        else (r2.1, r2.2.1, anytimeTasks)).2.1, 0 ≤ s.task.duration) ∧
      (∀ t ∈ (if r2.1.currentTime <
            (getTimeSlot PreferredTime.midday ctx.startTime ctx.endTime).1 ∧
            middayTasks ≠ [] then
          gapFillLoop ctx (getTimeSlot PreferredTime.midday ctx.startTime ctx.endTime).1
            r2.1 r2.2.1 anytimeTasks
        else (r2.1, r2.2.1, anytimeTasks)).2.2, 0 ≤ t.duration) := by
    split
    next =>
      obtain ⟨g1, g2, g3⟩ := gapFillLoop_inv hwf
        (getTimeSlot PreferredTime.midday ctx.startTime ctx.endTime).1 r2.1 r2.2.1
        anytimeTasks hslr2 hay i2
      exact ⟨g1, fun s hs => hslr2 s (g2 s hs), fun t ht => hay t (g3 t ht)⟩
    next => exact ⟨i2, hslr2, hay⟩
  obtain ⟨i3, hsl3, hay3⟩ := hstep3
  obtain ⟨i4, s4⟩ := schedulePreferredTasks_inv hwf middayTasks _ _ hmd hsl3 i3
  set r3 := if r2.1.currentTime <
        (getTimeSlot PreferredTime.midday ctx.startTime ctx.endTime).1 ∧
        middayTasks ≠ [] then
      gapFillLoop ctx (getTimeSlot PreferredTime.midday ctx.startTime ctx.endTime).1
        r2.1 r2.2.1 anytimeTasks
    else (r2.1, r2.2.1, anytimeTasks) with hr3
  have hsl4 : ∀ s ∈ (schedulePreferredTasks ctx middayTasks r3.1 r3.2.1).2,
      0 ≤ s.task.duration := fun s hs => hsl3 s (s4 s hs)
  have hstep5 :
      EngineInv ctx (if (schedulePreferredTasks ctx middayTasks r3.1 r3.2.1).1.currentTime <
            (getTimeSlot PreferredTime.afternoon ctx.startTime ctx.endTime).1 ∧
            afternoonTasks ≠ [] then
          gapFillLoop ctx (getTimeSlot PreferredTime.afternoon ctx.startTime ctx.endTime).1
            (schedulePreferredTasks ctx middayTasks r3.1 r3.2.1).1
            (schedulePreferredTasks ctx middayTasks r3.1 r3.2.1).2 r3.2.2
        else ((schedulePreferredTasks ctx middayTasks r3.1 r3.2.1).1,
          (schedulePreferredTasks ctx middayTasks r3.1 r3.2.1).2, r3.2.2)).1 ∧
      (∀ s ∈ (if (schedulePreferredTasks ctx middayTasks r3.1 r3.2.1).1.currentTime <
            (getTimeSlot PreferredTime.afternoon ctx.startTime ctx.endTime).1 ∧
            afternoonTasks ≠ [] then
          gapFillLoop ctx (getTimeSlot PreferredTime.afternoon ctx.startTime ctx.endTime).1
            (schedulePreferredTasks ctx middayTasks r3.1 r3.2.1).1
            (schedulePreferredTasks ctx middayTasks r3.1 r3.2.1).2 r3.2.2
        else ((schedulePreferredTasks ctx middayTasks r3.1 r3.2.1).1,
          (schedulePreferredTasks ctx middayTasks r3.1 r3.2.1).2, r3.2.2)).2.1,
        0 ≤ s.task.duration) ∧
      (∀ t ∈ (if (schedulePreferredTasks ctx middayTasks r3.1 r3.2.1).1.currentTime <
            (getTimeSlot PreferredTime.afternoon ctx.startTime ctx.endTime).1 ∧
            afternoonTasks ≠ [] then
          gapFillLoop ctx (getTimeSlot PreferredTime.afternoon ctx.startTime ctx.endTime).1
            (schedulePreferredTasks ctx middayTasks r3.1 r3.2.1).1
            (schedulePreferredTasks ctx middayTasks r3.1 r3.2.1).2 r3.2.2
        else ((schedulePreferredTasks ctx middayTasks r3.1 r3.2.1).1,
          (schedulePreferredTasks ctx middayTasks r3.1 r3.2.1).2, r3.2.2)).2.2,
        0 ≤ t.duration) := by
    split
    next =>
      obtain ⟨g1, g2, g3⟩ := gapFillLoop_inv hwf
        (getTimeSlot PreferredTime.afternoon ctx.startTime ctx.endTime).1 _ _ _
        hsl4 (fun t ht => hay3 t ht) i4
      exact ⟨g1, fun s hs => hsl4 s (g2 s hs), fun t ht => hay3 t (g3 t ht)⟩
    next => exact ⟨i4, hsl4, hay3⟩
  obtain ⟨i5, hsl5, hay5⟩ := hstep5
  obtain ⟨i6, s6⟩ := schedulePreferredTasks_inv hwf afternoonTasks _ _ ha hsl5 i5
  have hsl6 : ∀ s ∈ (schedulePreferredTasks ctx afternoonTasks _ _).2,
      0 ≤ s.task.duration := fun s hs => hsl5 s (s6 s hs)
  obtain ⟨i7, s7⟩ := schedulePreferredTasks_inv hwf _ _ _ hay5 hsl6 i6
  have hsl7 : ∀ s ∈ (schedulePreferredTasks ctx _ _ _).2, 0 ≤ s.task.duration :=
    fun s hs => hsl6 s (s7 s hs)
  have hremtd : ∀ t ∈ sortTodosByTimeframe
      (eligibleTodos.filter fun t => !(r2.2.2.contains t.id)), 0 ≤ t.duration := by
    intro t ht
    have := (List.Perm.mem_iff (List.perm_insertionSort todoLe _)).mp ht
    exact htd t (List.mem_of_mem_filter this)
  obtain ⟨i8, s8⟩ := finalTodoLoop_inv hwf _ _ _ hremtd hsl7 i7
  have hsl8 : ∀ s ∈ (finalTodoLoop ctx _ _ _).2, 0 ≤ s.task.duration :=
    fun s hs => hsl7 s (s8 s hs)
  exact finalSpreadFlush_inv hwf _ _ hsl8 i8

theorem pairwise_of_forall_mem {α : Type} {R : α → α → Prop} :
    ∀ (l : List α), (∀ a ∈ l, ∀ b ∈ l, R a b) → l.Pairwise R := by
  intro l
  induction l with
  | nil => intro _; simp
  | cons a rest ih =>
    intro h
    refine List.Pairwise.cons ?_ (ih ?_)
    · intro b hb
      exact h a (List.mem_cons_self _ _) b (List.mem_cons_of_mem _ hb)
    · intro x hx y hy
      exact h x (List.mem_cons_of_mem _ hx) y (List.mem_cons_of_mem _ hy)

theorem timeOverlap_symm : Symmetric fun a b => NB a → NB b → ¬ TimeOverlap a b := by
  intro a b h hb ha hover
  refine h ha hb ?_
  unfold TimeOverlap at hover ⊢
  rw [max_comm, min_comm]
  exact hover

theorem getCalendarBlocksForDate_wf (events : List CalendarEvent) (s e : ℚ) :
    ∀ b ∈ getCalendarBlocksForDate events s e, b.start ≤ b.stop := by
  intro b hb
  unfold getCalendarBlocksForDate at hb
  have hb2 := (List.Perm.mem_iff (List.perm_insertionSort _ _)).mp hb
  have := List.of_mem_filter hb2
  simp only [decide_eq_true_eq] at this
  exact le_of_lt this

theorem calendarEventsToScheduledTasks_sourceType (events : List CalendarEvent) :
    ∀ e ∈ calendarEventsToScheduledTasks events, e.sourceType = .calendar := by
  intro e he
  unfold calendarEventsToScheduledTasks at he
  obtain ⟨ev, _, rfl⟩ := List.mem_map.mp he
  rfl

theorem mem_sortTodosByTimeframe {l : List TodoItem} {t : TodoItem}
    (h : t ∈ sortTodosByTimeframe l) : t ∈ l :=
  (List.Perm.mem_iff (List.perm_insertionSort todoLe l)).mp h

theorem engineOutput_spec (ctx : EngineCtx) (st9 : EngineState)
    (cal : List ScheduledTask) (hinv : EngineInv ctx st9)
    (hcal : ∀ e ∈ cal, e.sourceType = .calendar) :
    ((st9.schedule ++ cal).insertionSort
        fun a b => a.scheduledStart ≤ b.scheduledStart).Pairwise
      (fun a b => NB a → NB b → ¬ TimeOverlap a b) ∧
    ∀ e ∈ (st9.schedule ++ cal).insertionSort
        fun a b => a.scheduledStart ≤ b.scheduledStart,
      e.sourceType ≠ .calendar →
        ctx.startTime ≤ e.scheduledStart ∧ e.scheduledEnd ≤ ctx.endTime := by
  have hfull : (st9.schedule ++ cal).Pairwise
      (fun a b => NB a → NB b → ¬ TimeOverlap a b) := by
    rw [List.pairwise_append]
    refine ⟨?_, ?_, ?_⟩
    · refine hinv.ordered.imp ?_
      intro a b hab _ _ hover
      unfold TimeOverlap at hover
      have h1 : min a.scheduledEnd b.scheduledEnd ≤ a.scheduledEnd := min_le_left _ _
      have h2 : b.scheduledStart ≤ max a.scheduledStart b.scheduledStart := le_max_right _ _
      linarith
    · refine pairwise_of_forall_mem _ ?_
      intro a _ b hb _ hnb
      exact absurd (hcal b hb) hnb.2
    · intro a _ b hb _ hnb
      exact absurd (hcal b hb) hnb.2
  constructor
  · exact (List.Perm.pairwise_iff (fun {x y} h => timeOverlap_symm h)
      (List.perm_insertionSort _ _)).mpr hfull
  · intro e he hne
    have he2 := (List.Perm.mem_iff (List.perm_insertionSort _ _)).mp he
    rcases List.mem_append.mp he2 with h | h
    · exact ⟨hinv.startsGe e h, hinv.endsLeEnd e h⟩
    · exact absurd (hcal e h) hne

theorem runEngine_inv (startTime endTime breakDuration : ℚ) (allowTomorrow : Bool)
    (dayCoreTasks : List CoreTask) (eligibleTodos : List TodoItem)
    (calendarEvents : List CalendarEvent)
    (hct : ∀ t ∈ dayCoreTasks, 0 ≤ t.duration)
    (htd : ∀ t ∈ eligibleTodos, 0 ≤ t.duration) :
    (runEngine startTime endTime breakDuration allowTomorrow dayCoreTasks
        eligibleTodos calendarEvents).Pairwise
      (fun a b => NB a → NB b → ¬ TimeOverlap a b) ∧
    ∀ e ∈ runEngine startTime endTime breakDuration allowTomorrow dayCoreTasks
        eligibleTodos calendarEvents,
      e.sourceType ≠ .calendar →
        startTime ≤ e.scheduledStart ∧ e.scheduledEnd ≤ endTime := by
  simp only [runEngine]
  refine engineOutput_spec
    { startTime := startTime, endTime := endTime, breakDuration := breakDuration
      calendarBlocks := getCalendarBlocksForDate calendarEvents startTime endTime }
    _ _ ?_ (calendarEventsToScheduledTasks_sourceType _)
  have hwf : WFBlocks
      { startTime := startTime, endTime := endTime, breakDuration := breakDuration
        calendarBlocks := getCalendarBlocksForDate calendarEvents startTime endTime } :=
    getCalendarBlocksForDate_wf calendarEvents startTime endTime
  refine enginePipeline_inv hwf allowTomorrow _ _ _ _ eligibleTodos _
    ?_ ?_ ?_ ?_ htd ?_
  · exact fun t ht => hct t (List.mem_of_mem_filter (List.mem_of_mem_filter ht))
  · exact fun t ht => hct t (List.mem_of_mem_filter (List.mem_of_mem_filter ht))
  · exact fun t ht => hct t (List.mem_of_mem_filter (List.mem_of_mem_filter ht))
  · exact fun t ht => hct t (List.mem_of_mem_filter (List.mem_of_mem_filter ht))
  · intro s hs
    have hs2 := (List.Perm.mem_iff (List.perm_insertionSort _ _)).mp hs
    obtain ⟨task, htask, hmem⟩ := List.mem_flatMap.mp hs2
    obtain ⟨p, _, hp⟩ := List.mem_map.mp hmem
    have heq : s.task = task := by rw [← hp]
    rw [heq]
    exact hct task (List.mem_of_mem_filter htask)

namespace Ex

/-- A concrete date (day 0 is a Monday of some month). -/
def mondayDate : PDate := ⟨0, 0, 1⟩

/-- An every-day recurrence with no weekday restriction. -/
def dailyRec : Recurrence := ⟨.daily, none, none⟩

/-- 09:00-12:00 work window, breaks disabled. -/
def cfgBlocked : DaySchedule := ⟨true, 540, 720, 0⟩

/-- A 10:00-11:00 calendar event. -/
def meeting : CalendarEvent := ⟨"e1", "Mtg", 600, 660, false, none, none⟩

/-- A 90-minute anytime core task. -/
def work90 : CoreTask := ⟨"t1", "Work", 90, 1, dailyRec, .anytime, none⟩

/-- 09:00-17:00 work window, breaks disabled. -/
def cfgFull : DaySchedule := ⟨true, 540, 1020, 0⟩

/-- A 20-minute spread task, three times a day. -/
def stretch3 : CoreTask := ⟨"t2", "Stretch", 20, 3, dailyRec, .spread, none⟩

/-- A "today" todo of 30 minutes, created later than `todoB`. -/
def todoA : TodoItem := ⟨"a", "A", 30, some .today, false, 100⟩

/-- A "this week" todo of 30 minutes, created earlier than `todoA`. -/
def todoB : TodoItem := ⟨"b", "B", 30, some .this_week, false, 0⟩

/-- An incomplete "tomorrow" todo. -/
def todoTomorrow : TodoItem := ⟨"tm", "Call garage", 30, some .tomorrow, false, 0⟩

/-- 09:00-12:00 work window with 10-minute breaks. -/
def cfgBreaks : DaySchedule := ⟨true, 540, 720, 10⟩

/-- Engine context of `cfgBreaks` with no calendar blocks. -/
def ctxBreaks : EngineCtx := ⟨540, 720, 10, []⟩

/-- Engine context: 09:00-12:00, no breaks, one clamped block 10:00-11:00. -/
def ctxBlocked : EngineCtx := ⟨540, 720, 0, [⟨600, 660, meeting⟩]⟩

end Ex

/-- C1, counterexample: in a 09:00-12:00 window with a calendar block clamped
to 10:00-11:00, a 90-minute anytime obligation is placed 09:00-10:30 by
`generateDailySchedule` — the pre-block gap is 60 ≥ 5 minutes, the engine
does not truncate or skip, and the placed non-break, non-calendar activity
crosses the block's start and overlaps the block. -/
theorem C1_counterexample :
    ((getCalendarBlocksForDate [Ex.meeting] 540 720).map fun b => (b.start, b.stop)) =
        [((600 : ℚ), (660 : ℚ))] ∧
    (((generateDailySchedule [Ex.work90] [] Ex.cfgBlocked [Ex.meeting]
          Ex.mondayDate).filter fun e => decide (e.sourceType = .core)).map
        fun e => (e.scheduledStart, e.scheduledEnd)) = [((540 : ℚ), (630 : ℚ))] ∧
    max (540 : ℚ) 600 < min (630 : ℚ) 660 := by
  refine ⟨?_, ?_, by norm_num⟩
  · norm_num +decide [getCalendarBlocksForDate, getTimedEventsForDate, Ex.meeting,
      dayStartMinutes, dayEndMinutes, List.insertionSort, List.orderedInsert,
      List.filter, List.map]
  · norm_num +decide [generateDailySchedule, runEngine, enginePipeline,
      getCalendarBlocksForDate, getTimedEventsForDate, calendarEventsToScheduledTasks,
      Ex.cfgBlocked, Ex.mondayDate, Ex.work90, Ex.meeting, Ex.dailyRec,
      dayStartMinutes, dayEndMinutes, shouldCoreTaskRunToday, shouldCoreTaskRunOnDate,
      PDate.getDay, schedulePreferredTasks, morningTodoLoop, finalTodoLoop,
      finalSpreadFlush, sortTodosByTimeframe, List.insertionSort, List.orderedInsert,
      getTimeSlot, addTask, seekPlacement, placeAt, placeWithEnd,
      advancePastCalendarBlocks, getNextCalendarBlock, createBreak, insertSpreadTask,
      spreadTitle, getSpreadSlots, flushSpreadWhile, spreadDue, timeframeColor,
      defaultCoreColor, List.filter, List.flatMap, List.enum, List.enumFrom,
      List.contains, List.elem, List.find?, List.foldl, isTodoEligibleToday,
      timeframeOrder]

theorem seekPlacement_lt_end (ctx : EngineCtx) (t duration : ℚ)
    (h : (seekPlacement ctx t duration).2 = false) :
    (seekPlacement ctx t duration).1 < ctx.endTime := by
  revert h
  simp only [seekPlacement]
  split
  next => simp
  next =>
    split
    next nb heq =>
      split
      next =>
        split
        next => simp
        next =>
          intro h
          exact lt_of_not_le (by simpa using h)
      next =>
        intro h
        exact lt_of_not_le (by simpa using h)
    next heq =>
      intro h
      exact lt_of_not_le (by simpa using h)

theorem seekPlacement_skip {ctx : EngineCtx} {t duration : ℚ} {nb : CalBlock}
    (hnb : getNextCalendarBlock ctx.calendarBlocks
      (advancePastCalendarBlocks ctx.calendarBlocks t) = some nb)
    (hcross : nb.start < advancePastCalendarBlocks ctx.calendarBlocks t + duration)
    (hgap : nb.start - advancePastCalendarBlocks ctx.calendarBlocks t < 5) :
    (seekPlacement ctx t duration).2 = true ∨
      nb.stop ≤ (seekPlacement ctx t duration).1 := by
  simp only [seekPlacement]
  split
  next hend => left; rfl
  next hend =>
    simp only [hnb]
    rw [if_pos ⟨hcross, hgap⟩]
    split
    next hend2 => left; rfl
    next hend2 =>
      right
      exact le_trans (advancePastCalendarBlocks_le _ _)
        (advancePastCalendarBlocks_le _ _)

/-- C1, amended: when an activity's tentative end would cross into the next
upcoming calendar block and the gap before the block's start is under 5
minutes, the cursor jumps to the block's end: every entry the `addTask` call
appends starts at or after the block's end, so the activity is never placed
across that block.  (When the gap is 5 minutes or more the engine places the
activity at the cursor with its full end-of-day-clipped duration, and it may
overlap the block — see the counterexample.) -/
theorem C1_amended (ctx : EngineCtx) (st : EngineState) (sid : String)
    (sty : SourceType) (title : String) (duration : ℚ) (tf : Option Timeframe)
    (color : Option String) (nb : CalBlock) (hd : 0 ≤ duration)
    (hnb : getNextCalendarBlock ctx.calendarBlocks
      (advancePastCalendarBlocks ctx.calendarBlocks st.currentTime) = some nb)
    (hcross : nb.start <
      advancePastCalendarBlocks ctx.calendarBlocks st.currentTime + duration)
    (hgap : nb.start -
      advancePastCalendarBlocks ctx.calendarBlocks st.currentTime < 5) :
    ∀ e ∈ (addTask ctx st sid sty title duration tf color).1.schedule.drop
      st.schedule.length, nb.stop ≤ e.scheduledStart := by
  rcases seekPlacement_skip hnb hcross hgap with hfail | hskip
  · simp only [addTask, hfail, if_pos]
    simp [List.drop_length]
  · by_cases hfail : (seekPlacement ctx st.currentTime duration).2
    · simp only [addTask, hfail, if_pos]
      simp [List.drop_length]
    · have h3lt : (seekPlacement ctx st.currentTime duration).1 < ctx.endTime :=
        seekPlacement_lt_end ctx st.currentTime duration (by simpa using hfail)
      obtain ⟨_, new, hnew, _, hprops⟩ :=
        placeAt_spec ctx st (seekPlacement ctx st.currentTime duration).1 sid sty
          title duration tf color h3lt hd
      simp only [addTask, hfail]
      rw [if_neg (by simp [hfail])]
      intro e he
      rw [hnew, List.drop_left] at he
      exact le_trans hskip (hprops e he).1

/-- C2, counterexample: a lone spread obligation with repeat-count 3 in the
09:00-17:00 no-break window is *not* scheduled at the target instants 10:20,
13:00, 15:40; the final spread flush places the three instances back to back
at the cursor, from 09:00. -/
theorem C2_counterexample :
    ((generateDailySchedule [Ex.stretch3] [] Ex.cfgFull [] Ex.mondayDate).map
        fun e => e.scheduledStart) = [(540 : ℚ), 560, 580] ∧
    ¬ ((generateDailySchedule [Ex.stretch3] [] Ex.cfgFull [] Ex.mondayDate).map
        fun e => e.scheduledStart) = [(620 : ℚ), 780, 940] := by
  have h : ((generateDailySchedule [Ex.stretch3] [] Ex.cfgFull [] Ex.mondayDate).map
      fun e => e.scheduledStart) = [(540 : ℚ), 560, 580] := by
    norm_num +decide [generateDailySchedule, runEngine, enginePipeline,
      getCalendarBlocksForDate, getTimedEventsForDate, calendarEventsToScheduledTasks,
      Ex.cfgFull, Ex.mondayDate, Ex.stretch3, Ex.dailyRec, dayStartMinutes,
      dayEndMinutes, shouldCoreTaskRunToday, shouldCoreTaskRunOnDate, PDate.getDay,
      schedulePreferredTasks, morningTodoLoop, finalTodoLoop, finalSpreadFlush,
      sortTodosByTimeframe, List.insertionSort, List.orderedInsert, getTimeSlot,
      addTask, seekPlacement, placeAt, placeWithEnd, advancePastCalendarBlocks,
      getNextCalendarBlock, createBreak, insertSpreadTask, spreadTitle, getSpreadSlots,
      flushSpreadWhile, spreadDue, timeframeColor, defaultCoreColor, List.filter,
      List.flatMap, List.enum, List.enumFrom, List.contains, List.elem, List.find?,
      List.foldl, isTodoEligibleToday, timeframeOrder]
  refine ⟨h, ?_⟩
  rw [h]
  norm_num

/-- C2, amended: `getSpreadSlots` computes, for repeat-count N ≥ 2, the
0-indexed slot-`i` target instant `start + (span/N)*i + (span/N)/2`; for the
09:00-17:00 window and N = 3 these are 10:20, 13:00, 15:40, and the lone
spread obligation yields exactly the three instances titled "(1/3)", "(2/3)",
"(3/3)" — but they are flushed at the cursor (09:00, 09:20, 09:40 for a
20-minute duration), not placed at the target instants. -/
theorem C2_amended :
    (∀ (n : Int) (s e : ℚ), 1 < n → ∀ (i : Nat), i < n.toNat →
      (getSpreadSlots n s e)[i]? =
        some (s + ((e - s) / (n : ℚ)) * (i : ℚ) + ((e - s) / (n : ℚ)) / 2)) ∧
    getSpreadSlots 3 540 1020 = [(620 : ℚ), 780, 940] ∧
    ((generateDailySchedule [Ex.stretch3] [] Ex.cfgFull [] Ex.mondayDate).map
        fun e => (e.title, e.scheduledStart)) =
      [("Stretch (1/3)", (540 : ℚ)), ("Stretch (2/3)", (560 : ℚ)),
        ("Stretch (3/3)", (580 : ℚ))] := by
  refine ⟨?_, ?_, ?_⟩
  · intro n s e hn i hi
    have h1 : ¬ n < 1 := by omega
    have h2 : ¬ n = 1 := by omega
    have hr : (List.range n.toNat)[i]? = some i := by
      simp [List.getElem?_range, hi]
    rw [getSpreadSlots, if_neg h1, if_neg h2]
    rw [List.getElem?_map, hr]
    rfl
  · norm_num [getSpreadSlots, List.range, List.range.loop]
  · norm_num +decide [generateDailySchedule, runEngine, enginePipeline,
      getCalendarBlocksForDate, getTimedEventsForDate, calendarEventsToScheduledTasks,
      Ex.cfgFull, Ex.mondayDate, Ex.stretch3, Ex.dailyRec, dayStartMinutes,
      dayEndMinutes, shouldCoreTaskRunToday, shouldCoreTaskRunOnDate, PDate.getDay,
      schedulePreferredTasks, morningTodoLoop, finalTodoLoop, finalSpreadFlush,
      sortTodosByTimeframe, List.insertionSort, List.orderedInsert, getTimeSlot,
      addTask, seekPlacement, placeAt, placeWithEnd, advancePastCalendarBlocks,
      getNextCalendarBlock, createBreak, insertSpreadTask, spreadTitle, getSpreadSlots,
      flushSpreadWhile, spreadDue, timeframeColor, defaultCoreColor, List.filter,
      List.flatMap, List.enum, List.enumFrom, List.contains, List.elem, List.find?,
      List.foldl, isTodoEligibleToday, timeframeOrder]

/-- C2, witness for the amended slot formula at N = 3, span 09:00-17:00,
slot 0. -/
theorem C2_witness :
    (getSpreadSlots 3 540 1020)[0]? =
      some ((540 : ℚ) + ((1020 - 540) / 3) * 0 + ((1020 - 540) / 3) / 2) :=
  C2_amended.1 3 540 1020 (by norm_num) 0 (by decide)

/-- C3, counterexample: an incomplete "tomorrow"-tagged item with the target
date equal to today (today or later, so the claim demands eligibility) is
judged ineligible by `isTodoEligibleToday`; and with target two days after
today (also later) it is judged ineligible by `isTodoEligibleForDate`. -/
theorem C3_counterexample :
    Ex.todoTomorrow.completed = false ∧
    Ex.todoTomorrow.timeframe = some .tomorrow ∧
    isTodoEligibleToday Ex.mondayDate Ex.todoTomorrow = false ∧
    isTodoEligibleForDate Ex.todoTomorrow ⟨2, 0, 3⟩ Ex.mondayDate = false := by
  decide

/-- C3, amended: for a "tomorrow"-tagged item, `generateDailySchedule`'s
eligibility predicate (`isTodoEligibleToday`) never judges it eligible, while
`generateScheduleForDate`'s (`isTodoEligibleForDate`) judges it eligible
exactly when the target date is at most one day after today — which includes
today, tomorrow and every *past* date, and excludes every date after
tomorrow. -/
theorem C3_amended (todo : TodoItem) (today target : PDate)
    (h : todo.timeframe = some .tomorrow) :
    isTodoEligibleToday today todo = false ∧
    (isTodoEligibleForDate todo target today = true ↔
      target.day - today.day ≤ 1) := by
  constructor
  · simp [isTodoEligibleToday, h]
  · simp [isTodoEligibleForDate, h]

/-- C3, witness: the amended characterisation applied to the concrete
"tomorrow" item with target one day after today. -/
theorem C3_witness :
    isTodoEligibleToday Ex.mondayDate Ex.todoTomorrow = false ∧
    (isTodoEligibleForDate Ex.todoTomorrow ⟨1, 0, 2⟩ Ex.mondayDate = true ↔
      (⟨1, 0, 2⟩ : PDate).day - Ex.mondayDate.day ≤ 1) :=
  C3_amended Ex.todoTomorrow Ex.mondayDate ⟨1, 0, 2⟩ rfl

/-- C1, witness for the amended claim: cursor at 09:58, next block 10:00-11:00
(gap 2 < 5 minutes), a 30-minute activity: the placed entry (11:00-11:30)
starts at or after the block's end 11:00. -/
theorem C1_witness :
    (660 : ℚ) ≤ (ScheduledTask.mk "x" .core "X" 660 690 .pending 30 none none
      none).scheduledStart :=
  C1_amended Ex.ctxBlocked ⟨[], 598⟩ "x" .core "X" 30 none none
    ⟨600, 660, Ex.meeting⟩ (by norm_num)
    (by norm_num +decide [getNextCalendarBlock, advancePastCalendarBlocks,
      List.find?, List.foldl, Ex.ctxBlocked, Ex.meeting])
    (by norm_num [advancePastCalendarBlocks, List.foldl, Ex.ctxBlocked])
    (by norm_num [advancePastCalendarBlocks, List.foldl, Ex.ctxBlocked])
    (ScheduledTask.mk "x" .core "X" 660 690 .pending 30 none none none)
    (by norm_num +decide [addTask, seekPlacement, placeAt, placeWithEnd,
      advancePastCalendarBlocks, getNextCalendarBlock, List.find?, List.foldl,
      Ex.ctxBlocked, Ex.meeting, createBreak])

/-- C4: for all inputs with non-negative durations, no two non-break,
non-calendar activities of either entry point's output overlap in time. -/
theorem C4_no_overlap (coreTasks : List CoreTask) (todos : List TodoItem)
    (dayConfig : DaySchedule) (calendarEvents : List CalendarEvent)
    (today date : PDate)
    (hct : ∀ t ∈ coreTasks, 0 ≤ t.duration)
    (htd : ∀ t ∈ todos, 0 ≤ t.duration) :
    (generateDailySchedule coreTasks todos dayConfig calendarEvents today).Pairwise
      (fun a b => NB a → NB b → ¬ TimeOverlap a b) ∧
    (generateScheduleForDate date coreTasks todos dayConfig calendarEvents
        today).Pairwise (fun a b => NB a → NB b → ¬ TimeOverlap a b) := by
  constructor
  · simp only [generateDailySchedule]
    split
    next => simp
    next =>
      exact (runEngine_inv _ _ _ _ _ _ _
        (fun t ht => hct t (List.mem_of_mem_filter ht))
        (fun t ht => htd t (List.mem_of_mem_filter (mem_sortTodosByTimeframe ht)))).1
  · simp only [generateScheduleForDate]
    split
    next => simp
    next =>
      exact (runEngine_inv _ _ _ _ _ _ _
        (fun t ht => hct t (List.mem_of_mem_filter ht))
        (fun t ht => htd t (List.mem_of_mem_filter (mem_sortTodosByTimeframe ht)))).1

/-- C4, witness at a concrete input. -/
theorem C4_witness :
    (generateDailySchedule [Ex.work90] [Ex.todoA] Ex.cfgBreaks [Ex.meeting]
        Ex.mondayDate).Pairwise (fun a b => NB a → NB b → ¬ TimeOverlap a b) ∧
    (generateScheduleForDate Ex.mondayDate [Ex.work90] [Ex.todoA] Ex.cfgBreaks
        [Ex.meeting] Ex.mondayDate).Pairwise
      (fun a b => NB a → NB b → ¬ TimeOverlap a b) :=
  C4_no_overlap [Ex.work90] [Ex.todoA] Ex.cfgBreaks [Ex.meeting] Ex.mondayDate
    Ex.mondayDate (by norm_num [Ex.work90]) (by norm_num [Ex.todoA])

/-- C5: for all inputs with non-negative durations, every engine-placed
activity (breaks included, calendar-derived entries exempt) lies inside the
configured work window. -/
theorem C5_within_window (coreTasks : List CoreTask) (todos : List TodoItem)
    (dayConfig : DaySchedule) (calendarEvents : List CalendarEvent)
    (today date : PDate)
    (hct : ∀ t ∈ coreTasks, 0 ≤ t.duration)
    (htd : ∀ t ∈ todos, 0 ≤ t.duration) :
    (∀ e ∈ generateDailySchedule coreTasks todos dayConfig calendarEvents today,
      e.sourceType ≠ .calendar →
        dayConfig.startTime ≤ e.scheduledStart ∧
          e.scheduledEnd ≤ dayConfig.endTime) ∧
    (∀ e ∈ generateScheduleForDate date coreTasks todos dayConfig calendarEvents
        today,
      e.sourceType ≠ .calendar →
        dayConfig.startTime ≤ e.scheduledStart ∧
          e.scheduledEnd ≤ dayConfig.endTime) := by
  constructor
  · simp only [generateDailySchedule]
    split
    next => simp
    next =>
      exact (runEngine_inv _ _ _ _ _ _ _
        (fun t ht => hct t (List.mem_of_mem_filter ht))
        (fun t ht => htd t (List.mem_of_mem_filter (mem_sortTodosByTimeframe ht)))).2
  · simp only [generateScheduleForDate]
    split
    next => simp
    next =>
      exact (runEngine_inv _ _ _ _ _ _ _
        (fun t ht => hct t (List.mem_of_mem_filter ht))
        (fun t ht => htd t (List.mem_of_mem_filter (mem_sortTodosByTimeframe ht)))).2

/-- C5, witness at a concrete input. -/
theorem C5_witness :
    (∀ e ∈ generateDailySchedule [Ex.work90] [Ex.todoA] Ex.cfgBreaks [Ex.meeting]
        Ex.mondayDate,
      e.sourceType ≠ .calendar →
        Ex.cfgBreaks.startTime ≤ e.scheduledStart ∧
          e.scheduledEnd ≤ Ex.cfgBreaks.endTime) ∧
    (∀ e ∈ generateScheduleForDate Ex.mondayDate [Ex.work90] [Ex.todoA]
        Ex.cfgBreaks [Ex.meeting] Ex.mondayDate,
      e.sourceType ≠ .calendar →
        Ex.cfgBreaks.startTime ≤ e.scheduledStart ∧
          e.scheduledEnd ≤ Ex.cfgBreaks.endTime) :=
  C5_within_window [Ex.work90] [Ex.todoA] Ex.cfgBreaks [Ex.meeting] Ex.mondayDate
    Ex.mondayDate (by norm_num [Ex.work90]) (by norm_num [Ex.todoA])

/-- C6: the engine is a pure function of its inputs and the injected "today":
two invocations on equal inputs agree in length and, entry for entry, in
title, timeframe and scheduled start/end (identifiers are not modelled, being
opaque and excluded from comparison). -/
theorem C6_deterministic (coreTasks₁ coreTasks₂ : List CoreTask)
    (todos₁ todos₂ : List TodoItem) (cfg₁ cfg₂ : DaySchedule)
    (ev₁ ev₂ : List CalendarEvent) (today₁ today₂ : PDate)
    (hct : coreTasks₁ = coreTasks₂) (htd : todos₁ = todos₂) (hcfg : cfg₁ = cfg₂)
    (hev : ev₁ = ev₂) (htoday : today₁ = today₂) :
    (generateDailySchedule coreTasks₁ todos₁ cfg₁ ev₁ today₁).length =
      (generateDailySchedule coreTasks₂ todos₂ cfg₂ ev₂ today₂).length ∧
    (generateDailySchedule coreTasks₁ todos₁ cfg₁ ev₁ today₁).map
        (fun e => (e.title, e.timeframe, e.scheduledStart, e.scheduledEnd)) =
      (generateDailySchedule coreTasks₂ todos₂ cfg₂ ev₂ today₂).map
        (fun e => (e.title, e.timeframe, e.scheduledStart, e.scheduledEnd)) := by
  subst hct htd hcfg hev htoday
  exact ⟨rfl, rfl⟩

/-- C6, witness at a concrete input. -/
theorem C6_witness :
    (generateDailySchedule [Ex.work90] [Ex.todoA] Ex.cfgBreaks [Ex.meeting]
        Ex.mondayDate).length =
      (generateDailySchedule [Ex.work90] [Ex.todoA] Ex.cfgBreaks [Ex.meeting]
        Ex.mondayDate).length ∧
    (generateDailySchedule [Ex.work90] [Ex.todoA] Ex.cfgBreaks [Ex.meeting]
        Ex.mondayDate).map
        (fun e => (e.title, e.timeframe, e.scheduledStart, e.scheduledEnd)) =
      (generateDailySchedule [Ex.work90] [Ex.todoA] Ex.cfgBreaks [Ex.meeting]
        Ex.mondayDate).map
        (fun e => (e.title, e.timeframe, e.scheduledStart, e.scheduledEnd)) :=
  C6_deterministic [Ex.work90] [Ex.work90] [Ex.todoA] [Ex.todoA] Ex.cfgBreaks
    Ex.cfgBreaks [Ex.meeting] [Ex.meeting] Ex.mondayDate Ex.mondayDate
    rfl rfl rfl rfl rfl

instance : IsTotal TodoItem todoLe :=
  ⟨by intro a b; unfold todoLe; omega⟩

instance : IsTrans TodoItem todoLe :=
  ⟨by intro a b c hab hbc; unfold todoLe at *; omega⟩

/-- C7: `sortTodosByTimeframe` permutes its input into a list sorted by
due-by urgency ascending with ties broken by creation timestamp ascending
(the relation `todoLe`); and concretely, a "today" item of duration 30 is
placed by the engine before an otherwise comparable "this-week" item of
duration 30. -/
theorem C7_urgency_order :
    (∀ todos : List TodoItem, (sortTodosByTimeframe todos).Sorted todoLe) ∧
    (∀ todos : List TodoItem, (sortTodosByTimeframe todos).Perm todos) ∧
    ((generateDailySchedule [] [Ex.todoA, Ex.todoB] Ex.cfgFull [] Ex.mondayDate).map
        fun e => e.title) = ["A", "B"] := by
  refine ⟨fun todos => List.sorted_insertionSort todoLe todos,
    fun todos => List.perm_insertionSort todoLe todos, ?_⟩
  norm_num +decide [generateDailySchedule, runEngine, enginePipeline,
    getCalendarBlocksForDate, getTimedEventsForDate, calendarEventsToScheduledTasks,
    Ex.cfgFull, Ex.mondayDate, Ex.todoA, Ex.todoB, dayStartMinutes, dayEndMinutes,
    shouldCoreTaskRunToday, shouldCoreTaskRunOnDate, PDate.getDay,
    schedulePreferredTasks, morningTodoLoop, finalTodoLoop, finalSpreadFlush,
    sortTodosByTimeframe, List.insertionSort, List.orderedInsert, getTimeSlot,
    addTask, seekPlacement, placeAt, placeWithEnd, advancePastCalendarBlocks,
    getNextCalendarBlock, createBreak, insertSpreadTask, spreadTitle, getSpreadSlots,
    flushSpreadWhile, spreadDue, timeframeColor, defaultCoreColor, List.filter,
    List.flatMap, List.enum, List.enumFrom, List.contains, List.elem, List.find?,
    List.foldl, isTodoEligibleToday, timeframeOrder, todoLe, startOfWeekDay]

/-- C8: a disabled `DayConfiguration` makes both entry points return the empty
list, regardless of the other inputs. -/
theorem C8_disabled_empty (coreTasks : List CoreTask) (todos : List TodoItem)
    (dayConfig : DaySchedule) (calendarEvents : List CalendarEvent)
    (today date : PDate) (h : dayConfig.enabled = false) :
    generateDailySchedule coreTasks todos dayConfig calendarEvents today = [] ∧
    generateScheduleForDate date coreTasks todos dayConfig calendarEvents
      today = [] := by
  simp [generateDailySchedule, generateScheduleForDate, h]

/-- C8, witness: a disabled configuration with non-trivial other inputs. -/
theorem C8_witness :
    generateDailySchedule [Ex.work90] [Ex.todoA] ⟨false, 540, 720, 10⟩ [Ex.meeting]
      Ex.mondayDate = [] ∧
    generateScheduleForDate Ex.mondayDate [Ex.work90] [Ex.todoA]
      ⟨false, 540, 720, 10⟩ [Ex.meeting] Ex.mondayDate = [] :=
  C8_disabled_empty [Ex.work90] [Ex.todoA] ⟨false, 540, 720, 10⟩ [Ex.meeting]
    Ex.mondayDate Ex.mondayDate rfl

/-- C9: after a successfully placed non-break activity (with a positive
configured break length), `addTask` appends a break exactly when the break
fits entirely before the end of the work day and does not overlap the next
calendar block; the appended break has full length `ctx.breakDuration`
starting at the post-advance cursor `t4`, and the cursor is advanced past it
to `breakEnd`; otherwise no break entry is appended at all (suppressed, never
shortened). -/
theorem C9_break_after_task (ctx : EngineCtx) (st : EngineState) (sid : String)
    (sty : SourceType) (title : String) (duration : ℚ) (tf : Option Timeframe)
    (color : Option String) (t3 actualEnd t4 breakEnd : ℚ)
    (hbd : 0 < ctx.breakDuration)
    (hsucc : (addTask ctx st sid sty title duration tf color).2 = true)
    (ht3 : t3 = (seekPlacement ctx st.currentTime duration).1)
    (hae : actualEnd = if ctx.endTime < t3 + duration then ctx.endTime
      else t3 + duration)
    (ht4 : t4 = advancePastCalendarBlocks ctx.calendarBlocks actualEnd)
    (hbe : breakEnd = t4 + ctx.breakDuration) :
    ((actualEnd < ctx.endTime ∧ breakEnd ≤ ctx.endTime ∧
        ∀ nb, getNextCalendarBlock ctx.calendarBlocks t4 = some nb →
          breakEnd ≤ nb.start) →
      (addTask ctx st sid sty title duration tf color).1.schedule.drop
          st.schedule.length =
        [{ sourceId := sid, sourceType := sty, title := title,
            scheduledStart := t3, scheduledEnd := actualEnd, status := .pending,
            duration := actualEnd - t3, timeframe := tf, color := color,
            location := none }, createBreak t4 ctx.breakDuration] ∧
      (addTask ctx st sid sty title duration tf color).1.currentTime = breakEnd) ∧
    (¬ (actualEnd < ctx.endTime ∧ breakEnd ≤ ctx.endTime ∧
        ∀ nb, getNextCalendarBlock ctx.calendarBlocks t4 = some nb →
          breakEnd ≤ nb.start) →
      (addTask ctx st sid sty title duration tf color).1.schedule.drop
          st.schedule.length =
        [{ sourceId := sid, sourceType := sty, title := title,
            scheduledStart := t3, scheduledEnd := actualEnd, status := .pending,
            duration := actualEnd - t3, timeframe := tf, color := color,
            location := none }]) := by
  subst hbe
  subst ht4
  subst hae
  subst ht3
  by_cases hfail : (seekPlacement ctx st.currentTime duration).2
  · exfalso
    simp [addTask, hfail] at hsucc
  · simp only [addTask]
    rw [if_neg (show ¬ ((seekPlacement ctx st.currentTime duration).2 = true)
      from hfail)]
    simp only [placeAt, placeWithEnd]
    generalize (if ctx.endTime < (seekPlacement ctx st.currentTime duration).1 +
      duration then ctx.endTime
      else (seekPlacement ctx st.currentTime duration).1 + duration) = A
    split
    next hgate =>
      split
      next hble =>
        split
        next hnone =>
          constructor
          · intro _
            exact ⟨List.drop_left _ _, rfl⟩
          · intro hnC
            exact absurd ⟨hgate.2, hble, fun nb hnb => by
              rw [hnone] at hnb; cases hnb⟩ hnC
        next nba hnba =>
          split
          next hok =>
            constructor
            · intro _
              exact ⟨List.drop_left _ _, rfl⟩
            · intro hnC
              refine absurd ⟨hgate.2, hble, fun nb hnb => ?_⟩ hnC
              rw [hnba] at hnb
              cases hnb
              exact hok
          next hnok =>
            constructor
            · intro hC
              exact absurd (hC.2.2 nba hnba) hnok
            · intro _
              exact List.drop_left _ _
      next hble =>
        constructor
        · intro hC
          exact absurd hC.2.1 hble
        · intro _
          exact List.drop_left _ _
    next hgate =>
      have hnae : ¬ A < ctx.endTime := fun h => hgate ⟨hbd, h⟩
      constructor
      · intro hC
        exact absurd hC.1 hnae
      · intro _
        exact List.drop_left _ _

/-- C9, witness: 09:00-12:00 window with 10-minute breaks and no calendar
blocks; a 60-minute activity placed at 09:00 gets a full 10-minute break
09:00+60 … +70 appended and the cursor lands at 10:10. -/
theorem C9_witness :
    (addTask Ex.ctxBreaks ⟨[], 540⟩ "x" .core "X" 60 none
        none).1.schedule.drop (([] : List ScheduledTask)).length =
      [{ sourceId := "x", sourceType := .core, title := "X",
          scheduledStart := (540 : ℚ),
          scheduledEnd := if (720 : ℚ) < 540 + 60 then 720 else 540 + 60,
          status := .pending,
          duration := (if (720 : ℚ) < 540 + 60 then 720 else 540 + 60) - 540,
          timeframe := none, color := none, location := none },
        createBreak (advancePastCalendarBlocks Ex.ctxBreaks.calendarBlocks
          (if (720 : ℚ) < 540 + 60 then 720 else 540 + 60)) 10] ∧
    (addTask Ex.ctxBreaks ⟨[], 540⟩ "x" .core "X" 60 none
        none).1.currentTime =
      advancePastCalendarBlocks Ex.ctxBreaks.calendarBlocks
        (if (720 : ℚ) < 540 + 60 then 720 else 540 + 60) + 10 := by
  refine (C9_break_after_task Ex.ctxBreaks ⟨[], 540⟩ "x" .core "X" 60 none none
    540 (if (720 : ℚ) < 540 + 60 then 720 else 540 + 60)
    (advancePastCalendarBlocks Ex.ctxBreaks.calendarBlocks
      (if (720 : ℚ) < 540 + 60 then 720 else 540 + 60))
    (advancePastCalendarBlocks Ex.ctxBreaks.calendarBlocks
      (if (720 : ℚ) < 540 + 60 then 720 else 540 + 60) + 10)
    (by norm_num [Ex.ctxBreaks])
    (by norm_num +decide [addTask, seekPlacement, advancePastCalendarBlocks,
      getNextCalendarBlock, List.find?, List.foldl, Ex.ctxBreaks])
    (by norm_num [seekPlacement, advancePastCalendarBlocks, getNextCalendarBlock,
      List.find?, List.foldl, Ex.ctxBreaks])
    rfl rfl rfl).1 ?_
  refine ⟨by norm_num [Ex.ctxBreaks], by
    norm_num [advancePastCalendarBlocks, List.foldl, Ex.ctxBreaks], ?_⟩
  intro nb hnb
  simp [getNextCalendarBlock, List.find?, Ex.ctxBreaks] at hnb

theorem getCompletedMinutes_le_total (s : List ScheduledTask)
    (h : ∀ e ∈ s, 0 ≤ e.duration) :
    getCompletedMinutes s ≤ getTotalScheduledMinutes s := by
  induction s with
  | nil => simp [getCompletedMinutes, getTotalScheduledMinutes]
  | cons e rest ih =>
    have he := h e (List.mem_cons_self _ _)
    have ih' := ih fun x hx => h x (List.mem_cons_of_mem _ hx)
    simp only [getCompletedMinutes, getTotalScheduledMinutes, List.filter_cons,
      ne_eq, decide_not] at ih' ⊢
    by_cases h1 : e.status = .completed <;> by_cases h2 : e.sourceType = .brk <;>
      simp [h1, h2] <;> linarith

theorem getCompletedMinutes_nonneg (s : List ScheduledTask)
    (h : ∀ e ∈ s, 0 ≤ e.duration) : 0 ≤ getCompletedMinutes s := by
  unfold getCompletedMinutes
  refine List.sum_nonneg ?_
  intro x hx
  obtain ⟨e, he, rfl⟩ := List.mem_map.mp hx
  exact h e (List.mem_of_mem_filter he)

theorem getTotalScheduledMinutes_nonneg (s : List ScheduledTask)
    (h : ∀ e ∈ s, 0 ≤ e.duration) : 0 ≤ getTotalScheduledMinutes s := by
  unfold getTotalScheduledMinutes
  refine List.sum_nonneg ?_
  intro x hx
  obtain ⟨e, he, rfl⟩ := List.mem_map.mp hx
  exact h e (List.mem_of_mem_filter he)

/-- C10: for every schedule whose entries have non-negative durations,
`getDayProgress` lies in [0, 100]; and whenever the total non-break scheduled
minutes are 0 the guard returns exactly 0, so no division by zero occurs. -/
theorem C10_progress_bounds :
    (∀ s : List ScheduledTask, (∀ e ∈ s, 0 ≤ e.duration) →
      0 ≤ getDayProgress s ∧ getDayProgress s ≤ 100) ∧
    (∀ s : List ScheduledTask, getTotalScheduledMinutes s = 0 →
      getDayProgress s = 0) := by
  constructor
  · intro s h
    simp only [getDayProgress]
    split
    next hpos =>
      have hc0 := getCompletedMinutes_nonneg s h
      have hct := getCompletedMinutes_le_total s h
      constructor
      · positivity
      · have hle1 : getCompletedMinutes s / getTotalScheduledMinutes s ≤ 1 :=
          (div_le_one hpos).mpr hct
        calc getCompletedMinutes s / getTotalScheduledMinutes s * 100
            ≤ 1 * 100 := by nlinarith
          _ = 100 := by norm_num
    next => norm_num
  · intro s h0
    simp only [getDayProgress]
    rw [h0]
    norm_num

/-- A completed 30-minute scheduled entry, for the C10 witness. -/
def doneEntry : ScheduledTask :=
  { sourceId := "x", sourceType := .core, title := "X", scheduledStart := 540
    scheduledEnd := 570, status := .completed, duration := 30, timeframe := none
    color := none, location := none }

/-- C10, witness: a schedule with one completed 30-minute core entry and one
break has progress within bounds. -/
theorem C10_witness :
    0 ≤ getDayProgress [doneEntry, createBreak 570 10] ∧
    getDayProgress [doneEntry, createBreak 570 10] ≤ 100 :=
  C10_progress_bounds.1 _ (by norm_num [createBreak, doneEntry])
